import Mathlib

/-!
Verification of the Bitespeed identity-resolution service
(`src/identityServcise.ts`).

The service is embedded shallowly: the persistent store is a list of
contact rows together with the next fresh id and the current timestamp;
every SQL statement consumes one "tick" and may fail according to a fault
schedule, which models store errors and lets transactional rollback be
stated.  JavaScript peculiarities that are observable in the source are
modelled explicitly: truthiness of strings (empty string is falsy), the
stable `Array.prototype.sort`, `filter(Boolean)`, insertion-ordered `Set`
and `Map`, and the fact that `createSecondaryContact` returns the raw
`result.rows` array (not `rows[0]`), so the in-memory contact list can
contain a non-contact element.
-/

deriving instance DecidableEq for Except

namespace IdentitySvc

inductive LinkPrecedence where
  | primary
  | secondary
deriving DecidableEq, Repr

structure Contact where
  id : Nat
  phoneNumber : Option String
  email : Option String
  linkedId : Option Nat
  linkPrecedence : LinkPrecedence
  createdAt : Nat
  updatedAt : Nat
  deletedAt : Option Nat
deriving DecidableEq, Repr

structure Store where
  rows : List Contact
  nextId : Nat
  now : Nat
deriving DecidableEq, Repr

structure DB where
  store : Store
  tick : Nat
  failAt : List Nat
deriving DecidableEq, Repr

inductive JsError where
  | validation
  | typeError
  | sqlError
deriving DecidableEq, Repr

structure ContactResponse where
  primaryContatctId : Nat
  emails : List String
  phoneNumbers : List String
  secondaryContactIds : List Nat
deriving DecidableEq, Repr

structure IdentifyResponse where
  contact : ContactResponse
deriving DecidableEq, Repr

/-- JS truthiness of an optional string: absent and empty strings are falsy. -/
def truthy : Option String → Bool
  | none => false
  | some s => if s = "" then false else true

/-- JS `value || null` on an optional string: a falsy value becomes null. -/
def norm : Option String → Option String
  | none => none
  | some s => if s = "" then none else some s

/-- Stable insertion of a contact into a list sorted by `key` ascending:
the new element goes after every element with a strictly smaller key and
before the first element whose key is not smaller, so elements with equal
keys keep their relative order. -/
def insertByKey (key : Contact → Nat) (c : Contact) : List Contact → List Contact
  | [] => [c]
  | x :: xs => if key x < key c then x :: insertByKey key c xs else c :: x :: xs

/-- Stable sort by `key` ascending; models both SQL `ORDER BY createdAt ASC`
over the table's row order and the (stable) JS `Array.prototype.sort`. -/
def sortByKey (key : Contact → Nat) : List Contact → List Contact
  | [] => []
  | x :: xs => insertByKey key x (sortByKey key xs)

/-- First-occurrence deduplication with an accumulator of already-seen
values. -/
def uniqFirstAux {α : Type} [DecidableEq α] (seen : List α) : List α → List α
  | [] => []
  | x :: xs => if x ∈ seen then uniqFirstAux seen xs else x :: uniqFirstAux (x :: seen) xs

/-- First-occurrence deduplication; models the insertion order of a JS `Set`. -/
def uniqFirst {α : Type} [DecidableEq α] (l : List α) : List α :=
  uniqFirstAux [] l

/-- Row predicate of the `findExistingContacts` query:
`(email = $e OR phoneNumber = $p) AND deletedAt IS NULL`, where a falsy
(absent or empty) request field contributes no condition. -/
def matchPred (email phoneNumber : Option String) (c : Contact) : Bool :=
  ((match norm email with
    | some e => decide (c.email = some e)
    | none => false) ||
   (match norm phoneNumber with
    | some p => decide (c.phoneNumber = some p)
    | none => false)) &&
  decide (c.deletedAt = none)

/-- Result of the `findExistingContacts` query on the given table. -/
def finderQuery (rows : List Contact) (email phoneNumber : Option String) : List Contact :=
  sortByKey (fun c => c.createdAt) (rows.filter (matchPred email phoneNumber))

/-- Primary id contributed by a found contact in `getAllLinkedContacts`:
its own id when it is primary, otherwise its `linkedId` when that is truthy
(the JS number 0 is falsy). -/
def primaryKeyOf (c : Contact) : Option Nat :=
  if c.linkPrecedence = .primary then some c.id
  else match c.linkedId with
    | some n => if n = 0 then none else some n
    | none => none

/-- The insertion-ordered set of primary ids collected by `getAllLinkedContacts`. -/
def primaryIdsOf (contacts : List Contact) : List Nat :=
  uniqFirst (contacts.filterMap primaryKeyOf)

/-- Row predicate of the cluster-expansion query:
`(id IN pids OR linkedId IN pids) AND deletedAt IS NULL`. -/
def expandPred (pids : List Nat) (c : Contact) : Bool :=
  (decide (c.id ∈ pids) ||
   (match c.linkedId with
    | some n => decide (n ∈ pids)
    | none => false)) &&
  decide (c.deletedAt = none)

/-- Result of the cluster-expansion query on the given table. -/
def expandQuery (rows : List Contact) (pids : List Nat) : List Contact :=
  sortByKey (fun c => c.createdAt) (rows.filter (expandPred pids))

/-- `needsNewSecondaryContact`: true unless some contact already carries the
exact `(email || null, phoneNumber || null)` pair. -/
def needsNewSecondaryContact (existingContacts : List Contact)
    (email phoneNumber : Option String) : Bool :=
  !(existingContacts.any fun c =>
      decide (c.email = norm email) && decide (c.phoneNumber = norm phoneNumber))

/-- `findOldestPrimary`: filter the primaries, sort by `createdAt` only
(stable), take the first; `none` models the JS `undefined` of `[0]` on an
empty array. -/
def findOldestPrimary (contacts : List Contact) : Option Contact :=
  (sortByKey (fun c => c.createdAt)
    (contacts.filter (fun c => decide (c.linkPrecedence = .primary)))).head?

/-- An element of the in-memory `allLinkedContacts` array.  Besides contact
objects it can hold the raw `result.rows` array, because the source's
`createSecondaryContact` returns `result.rows` rather than `result.rows[0]`
and that value is pushed onto the list.  Reading `.id`, `.linkedId` or
`.linkPrecedence` on the array yields JS `undefined`. -/
inductive Entry where
  | contact (c : Contact)
  | rowsArray (cs : List Contact)
deriving DecidableEq, Repr

/-- Grouping key used by `handleContactChainMerging`, as a JS value:
`none` is `undefined` (property read on the rows array), `some none` is
`null` (a secondary whose `linkedId` is null), `some (some n)` is the
number `n`. -/
def keyOf : Entry → Option (Option Nat)
  | .contact c => if c.linkPrecedence = .primary then some (some c.id) else some c.linkedId
  | .rowsArray _ => none

/-- Append an entry to the group of its key, keeping the insertion order of
a JS `Map`. -/
def addToGroups (k : Option (Option Nat)) (e : Entry) :
    List (Option (Option Nat) × List Entry) → List (Option (Option Nat) × List Entry)
  | [] => [(k, [e])]
  | (k', g) :: rest =>
    if k' = k then (k', g ++ [e]) :: rest else (k', g) :: addToGroups k e rest

/-- The `contactGroups` map of `handleContactChainMerging`, in insertion order. -/
def groupByPrimary (entries : List Entry) : List (Option (Option Nat) × List Entry) :=
  entries.foldl (fun gs e => addToGroups (keyOf e) e gs) []

/-- `find(c => c.linkPrecedence === 'primary')` over one group; the rows
array is skipped because its `linkPrecedence` is `undefined`. -/
def entryPrimary? (e : Entry) : Option Contact :=
  match e with
  | .contact c => if c.linkPrecedence = .primary then some c else none
  | .rowsArray _ => none

/-- First primary contact of a group, if any. -/
def findPrimaryInGroup (g : List Entry) : Option Contact :=
  (g.filterMap entryPrimary?).head?

/-- The `oldestPrimary` of the merge branch: per group the first primary (a
group without one contributes JS `undefined`, which `sort` moves to the
end), sorted stably by `createdAt` alone, first element. -/
def survivingPrimary (groups : List (Option (Option Nat) × List Entry)) : Option Contact :=
  (sortByKey (fun c => c.createdAt) (groups.filterMap (fun g => findPrimaryInGroup g.2))).head?

/-- Execute one SQL statement: consume a tick and report whether the fault
schedule makes this statement fail. -/
def runStmt (db : DB) : DB × Bool :=
  ({db with tick := db.tick + 1}, decide (db.tick ∈ db.failAt))

/-- `findExistingContacts`: one SELECT. -/
def findExistingContacts (db : DB) (email phoneNumber : Option String) :
    DB × Except JsError (List Contact) :=
  let r := runStmt db
  if r.2 then (r.1, .error .sqlError)
  else (r.1, .ok (finderQuery r.1.store.rows email phoneNumber))

/-- `getAllLinkedContacts`: collect the primary ids of the found contacts,
then one SELECT over `id IN pids OR linkedId IN pids`.  An empty id set
produces the SQL text `IN ()`, which is a syntax error. -/
def getAllLinkedContacts (db : DB) (contacts : List Contact) :
    DB × Except JsError (List Contact) :=
  if contacts = [] then (db, .ok [])
  else
    let pids := primaryIdsOf contacts
    let r := runStmt db
    if pids = [] then (r.1, .error .sqlError)
    else if r.2 then (r.1, .error .sqlError)
    else (r.1, .ok (expandQuery r.1.store.rows pids))

/-- `createPrimaryContact`: one INSERT .. RETURNING; falsy fields are stored
as null, `linkedId` is null, `linkPrecedence` is primary, both timestamps
are `CURRENT_TIMESTAMP`. -/
def createPrimaryContact (db : DB) (email phoneNumber : Option String) :
    DB × Except JsError Contact :=
  let r := runStmt db
  if r.2 then (r.1, .error .sqlError)
  else
    let db1 := r.1
    let c : Contact :=
      { id := db1.store.nextId
        phoneNumber := norm phoneNumber
        email := norm email
        linkedId := none
        linkPrecedence := .primary
        createdAt := db1.store.now
        updatedAt := db1.store.now
        deletedAt := none }
    ({db1 with store := {db1.store with
        rows := db1.store.rows ++ [c]
        nextId := db1.store.nextId + 1}}, .ok c)

/-- `createSecondaryContact`: one INSERT .. RETURNING.  The source returns
`result.rows` — the whole rows array — which here is the one-element list of
the inserted contact. -/
def createSecondaryContact (db : DB) (email phoneNumber : Option String)
    (linkedId : Nat) : DB × Except JsError (List Contact) :=
  let r := runStmt db
  if r.2 then (r.1, .error .sqlError)
  else
    let db1 := r.1
    let c : Contact :=
      { id := db1.store.nextId
        phoneNumber := norm phoneNumber
        email := norm email
        linkedId := some linkedId
        linkPrecedence := .secondary
        createdAt := db1.store.now
        updatedAt := db1.store.now
        deletedAt := none }
    ({db1 with store := {db1.store with
        rows := db1.store.rows ++ [c]
        nextId := db1.store.nextId + 1}}, .ok [c])

/-- Per-row effect of the first UPDATE of `convertPrimaryToSecondary`:
`SET linkedId = $new, linkPrecedence = 'secondary', updatedAt = now WHERE id = $n`. -/
def demoteOne (n newPrimaryId tNow : Nat) (c : Contact) : Contact :=
  if c.id = n then
    {c with linkedId := some newPrimaryId, linkPrecedence := .secondary, updatedAt := tNow}
  else c

/-- Per-row effect of the second UPDATE of `convertPrimaryToSecondary`:
`SET linkedId = $new, updatedAt = now WHERE linkedId = $n`. -/
def repointOne (n newPrimaryId tNow : Nat) (c : Contact) : Contact :=
  if c.linkedId = some n then {c with linkedId := some newPrimaryId, updatedAt := tNow}
  else c

/-- First UPDATE of `convertPrimaryToSecondary` over the whole table.
A null or undefined key matches no row. -/
def demotePrimaryStmt (rows : List Contact) (k : Option (Option Nat))
    (newPrimaryId tNow : Nat) : List Contact :=
  match k with
  | some (some n) => rows.map (demoteOne n newPrimaryId tNow)
  | _ => rows

/-- Second UPDATE of `convertPrimaryToSecondary` over the whole table. -/
def repointStmt (rows : List Contact) (k : Option (Option Nat))
    (newPrimaryId tNow : Nat) : List Contact :=
  match k with
  | some (some n) => rows.map (repointOne n newPrimaryId tNow)
  | _ => rows

/-- `convertPrimaryToSecondary`: BEGIN, the two UPDATEs, COMMIT; on any
failure the transaction is rolled back, so the rows revert to the snapshot
taken at BEGIN and the error propagates. -/
def convertPrimaryToSecondary (db : DB) (k : Option (Option Nat)) (newPrimaryId : Nat) :
    DB × Option JsError :=
  let snapshot := db.store.rows
  let r1 := runStmt db
  if r1.2 then (r1.1, some .sqlError)
  else
    let dbA := {r1.1 with store := {r1.1.store with
      rows := demotePrimaryStmt r1.1.store.rows k newPrimaryId r1.1.store.now}}
    let r2 := runStmt dbA
    if r2.2 then ({r2.1 with store := {r2.1.store with rows := snapshot}}, some .sqlError)
    else ({r2.1 with store := {r2.1.store with
      rows := repointStmt r2.1.store.rows k newPrimaryId r2.1.store.now}}, none)

/-- Row predicate of `getAllLinkedContactsById`:
`(id = $pid OR linkedId = $pid) AND deletedAt IS NULL`. -/
def byIdPred (pid : Nat) (c : Contact) : Bool :=
  (decide (c.id = pid) || decide (c.linkedId = some pid)) && decide (c.deletedAt = none)

/-- `getAllLinkedContactsById`: one SELECT, ordered by `createdAt`. -/
def getAllLinkedContactsById (db : DB) (pid : Nat) : DB × Except JsError (List Contact) :=
  let r := runStmt db
  if r.2 then (r.1, .error .sqlError)
  else (r.1, .ok (sortByKey (fun c => c.createdAt) (r.1.store.rows.filter (byIdPred pid))))

/-- The demotion loop of `handleContactChainMerging`: every group whose key
differs from the survivor's id (including the `null`/`undefined` keys, which
lead to no-op UPDATEs) goes through `convertPrimaryToSecondary`; a store
error stops the loop and propagates. -/
def demoteLoop (db : DB) (groups : List (Option (Option Nat) × List Entry))
    (survivorId : Nat) : DB × Option JsError :=
  match groups with
  | [] => (db, none)
  | (k, _) :: rest =>
    if k = some (some survivorId) then demoteLoop db rest survivorId
    else
      let r := convertPrimaryToSecondary db k survivorId
      match r.2 with
      | some e => (r.1, some e)
      | none => demoteLoop r.1 rest survivorId

/-- `handleContactChainMerging`: group the in-memory entries by primary key;
with more than one group, pick the surviving primary, demote every other
group's key and re-read the cluster by the survivor's id; otherwise return
the entries unchanged. -/
def handleContactChainMerging (db : DB) (entries : List Entry) :
    DB × Except JsError (List Entry) :=
  let groups := groupByPrimary entries
  if 1 < groups.length then
    match survivingPrimary groups with
    | none => (db, .error .typeError)
    | some oldest =>
      let r := demoteLoop db groups oldest.id
      match r.2 with
      | some e => (r.1, .error e)
      | none =>
        let rf := getAllLinkedContactsById r.1 oldest.id
        match rf.2 with
        | .error e => (rf.1, .error e)
        | .ok cs => (rf.1, .ok (cs.map .contact))
  else (db, .ok entries)

/-- `c.linkPrecedence === 'secondary'` filter of `buildResponse`; the rows
array is skipped because its `linkPrecedence` is `undefined`. -/
def entrySecondary? (e : Entry) : Option Contact :=
  match e with
  | .contact c => if c.linkPrecedence = .secondary then some c else none
  | .rowsArray _ => none

/-- `buildResponse`: first primary (missing primary is a TypeError on the
subsequent property reads), then the deduplicated truthy emails and phone
numbers — primary's value first — and the secondaries' ids in list order.
`filter(Boolean)` drops both nulls and empty strings. -/
def buildResponse (entries : List Entry) : Except JsError IdentifyResponse :=
  match (entries.filterMap entryPrimary?).head? with
  | none => .error .typeError
  | some prim =>
    let secondaries := entries.filterMap entrySecondary?
    .ok ⟨{ primaryContatctId := prim.id
           emails := uniqFirst ((prim.email :: secondaries.map (fun c => c.email)).filterMap norm)
           phoneNumbers := uniqFirst
             ((prim.phoneNumber :: secondaries.map (fun c => c.phoneNumber)).filterMap norm)
           secondaryContactIds := secondaries.map (fun c => c.id) }⟩

/-- The `identify` entry point, following the source line by line. -/
def identify (db : DB) (email phoneNumber : Option String) :
    DB × Except JsError IdentifyResponse :=
  if !truthy email && !truthy phoneNumber then (db, .error .validation)
  else
    match findExistingContacts db email phoneNumber with
    | (db1, .error e) => (db1, .error e)
    | (db1, .ok existingContacts) =>
      if existingContacts = [] then
        match createPrimaryContact db1 email phoneNumber with
        | (db2, .error e) => (db2, .error e)
        | (db2, .ok newContact) => (db2, buildResponse [.contact newContact])
      else
        match getAllLinkedContacts db1 existingContacts with
        | (db2, .error e) => (db2, .error e)
        | (db2, .ok allLinkedContacts) =>
          let step3 : DB × Except JsError (List Entry) :=
            if needsNewSecondaryContact allLinkedContacts email phoneNumber then
              match findOldestPrimary allLinkedContacts with
              | none => (db2, .error .typeError)
              | some prim =>
                match createSecondaryContact db2 email phoneNumber prim.id with
                | (db3, .error e) => (db3, .error e)
                | (db3, .ok newRows) =>
                  (db3, .ok ((allLinkedContacts.map .contact) ++ [.rowsArray newRows]))
            else (db2, .ok (allLinkedContacts.map .contact))
          match step3 with
          | (db3, .error e) => (db3, .error e)
          | (db3, .ok entries) =>
            match handleContactChainMerging db3 entries with
            | (db4, .error e) => (db4, .error e)
            | (db4, .ok finalEntries) => (db4, buildResponse finalEntries)

/-! ### Derived definitions used to state and prove properties -/

/-- Characterized shape of `groupByPrimary`: one group per distinct key in
first-occurrence order, holding exactly the entries with that key.  Proved
equal to `groupByPrimary` below. -/
def mkGroups (l : List Entry) : List (Option (Option Nat) × List Entry) :=
  (uniqFirst (l.map keyOf)).map (fun k => (k, l.filter (fun e => decide (keyOf e = k))))

/-- The real (numeric) keys of a group-key list that differ from the
survivor — exactly the primaries the demotion loop updates. -/
def demotedKeys (ks : List (Option (Option Nat))) (survivorId : Nat) : List Nat :=
  ks.filterMap fun k =>
    match k with
    | some (some n) => if n = survivorId then none else some n
    | _ => none

/-- Effect of the whole demotion loop on a single row: a row whose id is a
demoted key is demoted to a secondary of the survivor; a row pointing at a
demoted key is re-pointed to the survivor; all other rows are untouched. -/
def mergedRow (demoted : List Nat) (newPrimaryId tNow : Nat) (c : Contact) : Contact :=
  if c.id ∈ demoted then
    {c with linkedId := some newPrimaryId, linkPrecedence := .secondary, updatedAt := tNow}
  else if (match c.linkedId with | some m => decide (m ∈ demoted) | none => false) then
    {c with linkedId := some newPrimaryId, updatedAt := tNow}
  else c

/-- Well-formedness of a store: ids are positive, fresh ids really are
fresh, ids are unique, primaries have no link, and every secondary points
at a live primary row. -/
def WF (s : Store) : Prop :=
  (∀ c ∈ s.rows, 1 ≤ c.id ∧ c.id < s.nextId) ∧
  (s.rows.map (fun c => c.id)).Nodup ∧
  (∀ c ∈ s.rows, c.linkPrecedence = .primary → c.linkedId = none) ∧
  (∀ c ∈ s.rows, c.linkPrecedence = .secondary →
    ∃ pid, c.linkedId = some pid ∧
      ∃ p ∈ s.rows, p.id = pid ∧ p.linkPrecedence = .primary ∧ p.deletedAt = none) ∧
  1 ≤ s.nextId

/-- Post-state interface used for idempotence: the cluster of the live
primary `X` covers every live row matching the request, some live row
matches it, and some cluster member already carries the exact requested
`(email or null, phone or null)` pair. -/
def SteadyState (s : Store) (e p : Option String) (X : Contact) : Prop :=
  X ∈ s.rows ∧ X.linkPrecedence = .primary ∧ X.deletedAt = none ∧
  (∀ c ∈ s.rows, matchPred e p c = true → c.id = X.id ∨ c.linkedId = some X.id) ∧
  (∃ c ∈ s.rows, matchPred e p c = true) ∧
  (∃ m ∈ s.rows, m.deletedAt = none ∧ (m.id = X.id ∨ m.linkedId = some X.id) ∧
    m.email = norm e ∧ m.phoneNumber = norm p)

/-- Modelled from the spec's words for C8: the emails list the claim
predicts — the unique non-null emails, the primary's first, then each
secondary's in cluster order.  (Unlike the code's `filter(Boolean)`, this
keeps empty strings, which are non-null.) -/
def specEmailsNonNull (prim : Contact) (secondaries : List Contact) : List String :=
  uniqFirst ((prim.email :: secondaries.map (fun c => c.email)).filterMap id)

/-- A contact list in which contacts with equal `createdAt` appear in
ascending id order — true of every query result over an id-ordered table,
since the modelled `ORDER BY` is stable. -/
def TieOrdered (l : List Contact) : Prop :=
  l.Pairwise (fun a b => a.createdAt = b.createdAt → a.id ≤ b.id)

/-! ### Concrete sample data for witnesses and counterexamples -/

/-- Primary of cluster A: id 1, email `a@x`, created at 10. -/
def cA1 : Contact := ⟨1, none, some "a@x", none, .primary, 10, 10, none⟩

/-- Secondary of cluster A: id 3, phone 111, linked to 1, created at 30. -/
def cA2 : Contact := ⟨3, some "111", none, some 1, .secondary, 30, 30, none⟩

/-- Primary of cluster B: id 2, phone 222, created at 20. -/
def cB1 : Contact := ⟨2, some "222", none, none, .primary, 20, 20, none⟩

/-- Secondary of cluster B: id 4, phone 333, linked to 2, created at 40. -/
def cB2 : Contact := ⟨4, some "333", none, some 2, .secondary, 40, 40, none⟩

/-- A store holding the two clusters, with no faults scheduled. -/
def twoClusterDB : DB := ⟨⟨[cA1, cB1, cA2, cB2], 5, 100⟩, 0, []⟩

/-- The two-cluster store with a fault scheduled at statement 4 — the
second UPDATE (dependent re-pointing) of the demotion transaction, which
runs after the secondary INSERT has already committed. -/
def faultyTwoClusterDB : DB := ⟨⟨[cA1, cB1, cA2, cB2], 5, 100⟩, 0, [4]⟩

/-- A store holding only cluster A. -/
def clusterA_DB : DB := ⟨⟨[cA1, cA2], 5, 100⟩, 0, []⟩

/-- A secondary of contact 1 whose stored email is the empty string —
non-null, yet falsy for `filter(Boolean)`. -/
def emptyEmailSec : Contact := ⟨2, none, some "", some 1, .secondary, 20, 20, none⟩

/-- Two primaries with identical `createdAt` and distinct ids. -/
def tiePrimary1 : Contact := ⟨1, none, some "t1@x", none, .primary, 50, 50, none⟩

/-- Second of the two tied primaries. -/
def tiePrimary2 : Contact := ⟨2, none, some "t2@x", none, .primary, 50, 50, none⟩

/-- A two-cluster store whose fault schedule fails the second statement —
the re-pointing UPDATE inside the demotion transaction. -/
def rollbackDB : DB := ⟨⟨[cA1, cB1], 5, 100⟩, 0, [1]⟩

/-! ### Lemmas about the stable sort -/

theorem mem_insertByKey {key : Contact → Nat} {c d : Contact} {l : List Contact} :
    d ∈ insertByKey key c l ↔ d = c ∨ d ∈ l := by
  induction l with
  | nil => simp [insertByKey]
  | cons x xs ih =>
    simp only [insertByKey]
    split
    · simp only [List.mem_cons, ih]
      tauto
    · simp only [List.mem_cons]

theorem mem_sortByKey {key : Contact → Nat} {d : Contact} {l : List Contact} :
    d ∈ sortByKey key l ↔ d ∈ l := by
  induction l with
  | nil => simp [sortByKey]
  | cons x xs ih =>
    simp only [sortByKey, mem_insertByKey, ih, List.mem_cons]

theorem pairwise_insertByKey {key : Contact → Nat} {c : Contact} {l : List Contact}
    (h : l.Pairwise (fun a b => key a ≤ key b)) :
    (insertByKey key c l).Pairwise (fun a b => key a ≤ key b) := by
  induction l with
  | nil => simp [insertByKey]
  | cons x xs ih =>
    simp only [insertByKey]
    rcases h with _ | ⟨hx, hxs⟩
    split
    · refine List.Pairwise.cons ?_ (ih hxs)
      intro d hd
      rcases mem_insertByKey.1 hd with rfl | hd
      · omega
      · exact hx d hd
    · refine List.Pairwise.cons ?_ (List.Pairwise.cons hx hxs)
      intro d hd
      rcases List.mem_cons.1 hd with rfl | hd
      · omega
      · have := hx d hd
        omega

theorem pairwise_sortByKey {key : Contact → Nat} {l : List Contact} :
    (sortByKey key l).Pairwise (fun a b => key a ≤ key b) := by
  induction l with
  | nil => simp [sortByKey]
  | cons x xs ih => exact pairwise_insertByKey ih

theorem head_sortByKey_min {key : Contact → Nat} {l : List Contact} {c d : Contact}
    (hc : (sortByKey key l).head? = some c) (hd : d ∈ l) : key c ≤ key d := by
  have hmem : d ∈ sortByKey key l := mem_sortByKey.2 hd
  cases hs : sortByKey key l with
  | nil => rw [hs] at hmem; cases hmem
  | cons x xs =>
    rw [hs] at hc hmem
    simp only [List.head?_cons, Option.some.injEq] at hc
    subst hc
    have hp := @pairwise_sortByKey key l
    rw [hs] at hp
    rcases List.mem_cons.1 hmem with rfl | hmem
    · exact Nat.le_refl _
    · exact (List.pairwise_cons.1 hp).1 d hmem

/-- Stability of the sort, one insertion step: in a list sorted by `key`,
every element preceding the inserted one has a strictly smaller key, so the
elements with key exactly `v` keep their order. -/
theorem filter_key_insertByKey {key : Contact → Nat} {c : Contact} {l : List Contact} {v : Nat}
    (hl : l.Pairwise (fun a b => key a ≤ key b)) :
    (insertByKey key c l).filter (fun d => decide (key d = v)) =
      if key c = v then c :: l.filter (fun d => decide (key d = v))
      else l.filter (fun d => decide (key d = v)) := by
  induction l with
  | nil =>
    by_cases h : key c = v <;> simp [insertByKey, List.filter, h]
  | cons x xs ih =>
    rcases hl with _ | ⟨hx, hxs⟩
    simp only [insertByKey]
    by_cases hlt : key x < key c
    · rw [if_pos hlt]
      by_cases hv : key c = v
      · have hxv : ¬ key x = v := by omega
        simp [List.filter_cons, ih hxs, hv, hxv]
      · simp [List.filter_cons, ih hxs, hv]
    · rw [if_neg hlt]
      by_cases hv : key c = v
      · simp [List.filter_cons, hv]
      · simp [List.filter_cons, hv]

/-- Stability of the sort: the elements whose key equals a fixed value
appear in the sorted list exactly in their original order. -/
theorem filter_key_sortByKey {key : Contact → Nat} {l : List Contact} {v : Nat} :
    (sortByKey key l).filter (fun d => decide (key d = v)) =
      l.filter (fun d => decide (key d = v)) := by
  induction l with
  | nil => simp [sortByKey]
  | cons x xs ih =>
    simp only [sortByKey]
    rw [filter_key_insertByKey pairwise_sortByKey]
    by_cases hv : key x = v
    · rw [if_pos hv]
      simp [List.filter_cons, hv, ih]
    · rw [if_neg hv]
      simp [List.filter_cons, hv, ih]

/-- The head of the stable sort is the first element of the input attaining
the minimal key. -/
theorem head_sortByKey_first {key : Contact → Nat} {l : List Contact} {c : Contact}
    (hc : (sortByKey key l).head? = some c) :
    (l.filter (fun d => decide (key d = key c))).head? = some c := by
  have hstab := @filter_key_sortByKey key l (key c)
  cases hs : sortByKey key l with
  | nil => rw [hs] at hc; cases hc
  | cons x xs =>
    rw [hs] at hc
    simp only [List.head?_cons, Option.some.injEq] at hc
    subst hc
    rw [hs] at hstab
    rw [← hstab]
    simp [List.filter_cons]

/-- If the first element of `l` satisfying `p` is `c`, every other element
of `l` satisfying `p` is related to `c` by any relation `l` is pairwise in. -/
theorem head_filter_rel {R : Contact → Contact → Prop} {p : Contact → Bool}
    {l : List Contact} {c d : Contact} (hp : l.Pairwise R)
    (hh : (l.filter p).head? = some c) (hd : d ∈ l) (hpd : p d = true) :
    d = c ∨ R c d := by
  have hsub : (l.filter p).Pairwise R := hp.filter p
  have hdf : d ∈ l.filter p := List.mem_filter.2 ⟨hd, hpd⟩
  cases hf : l.filter p with
  | nil => rw [hf] at hdf; cases hdf
  | cons x xs =>
    rw [hf] at hh hdf hsub
    simp only [List.head?_cons, Option.some.injEq] at hh
    subst hh
    rcases List.mem_cons.1 hdf with rfl | hdx
    · exact Or.inl rfl
    · exact Or.inr ((List.pairwise_cons.1 hsub).1 d hdx)

/-! ### Lemmas about first-occurrence deduplication -/

theorem mem_uniqFirstAux {α : Type} [DecidableEq α] {seen l : List α} {x : α} :
    x ∈ uniqFirstAux seen l ↔ x ∈ l ∧ x ∉ seen := by
  induction l generalizing seen with
  | nil => simp [uniqFirstAux]
  | cons y ys ih =>
    rw [uniqFirstAux]
    by_cases hy : y ∈ seen
    · rw [if_pos hy, ih]
      by_cases hxy : x = y
      · subst hxy
        simp [hy]
      · simp [hxy]
    · rw [if_neg hy]
      simp only [List.mem_cons, ih, List.mem_cons]
      by_cases hxy : x = y
      · subst hxy
        simp [hy]
      · simp [hxy]

theorem mem_uniqFirst {α : Type} [DecidableEq α] {l : List α} {x : α} :
    x ∈ uniqFirst l ↔ x ∈ l := by
  rw [uniqFirst, mem_uniqFirstAux]
  simp

theorem nodup_uniqFirstAux {α : Type} [DecidableEq α] {seen l : List α} :
    (uniqFirstAux seen l).Nodup := by
  induction l generalizing seen with
  | nil => simp [uniqFirstAux]
  | cons y ys ih =>
    rw [uniqFirstAux]
    by_cases hy : y ∈ seen
    · rw [if_pos hy]
      exact ih
    · rw [if_neg hy]
      refine List.nodup_cons.2 ⟨?_, ih⟩
      intro hmem
      exact (mem_uniqFirstAux.1 hmem).2 (List.mem_cons_self y seen)

theorem nodup_uniqFirst {α : Type} [DecidableEq α] {l : List α} :
    (uniqFirst l).Nodup := nodup_uniqFirstAux

theorem uniqFirstAux_append_singleton {α : Type} [DecidableEq α]
    (seen l : List α) (x : α) :
    uniqFirstAux seen (l ++ [x]) =
      if x ∈ seen ∨ x ∈ l then uniqFirstAux seen l
      else uniqFirstAux seen l ++ [x] := by
  induction l generalizing seen with
  | nil =>
    simp only [List.nil_append, uniqFirstAux, List.not_mem_nil, or_false]
  | cons y ys ih =>
    rw [List.cons_append, uniqFirstAux, uniqFirstAux]
    by_cases hy : y ∈ seen
    · rw [if_pos hy, if_pos hy, ih]
      by_cases hxy : x = y
      · subst hxy
        simp [hy]
      · simp [hxy]
    · rw [if_neg hy, if_neg hy, ih]
      have hcond : (x ∈ y :: seen ∨ x ∈ ys) ↔ (x ∈ seen ∨ x ∈ y :: ys) := by
        simp only [List.mem_cons]
        tauto
      by_cases hc : x ∈ seen ∨ x ∈ y :: ys
      · rw [if_pos (hcond.2 hc), if_pos hc]
      · rw [if_neg (fun h => hc (hcond.1 h)), if_neg hc]
        simp

theorem uniqFirst_append_singleton {α : Type} [DecidableEq α] (l : List α) (x : α) :
    uniqFirst (l ++ [x]) =
      if x ∈ l then uniqFirst l else uniqFirst l ++ [x] := by
  rw [uniqFirst, uniqFirst, uniqFirstAux_append_singleton]
  simp

/-! ### Characterization of the grouping map -/

/-- Keys of a group list. -/
def groupKeys (gs : List (Option (Option Nat) × List Entry)) : List (Option (Option Nat)) :=
  gs.map Prod.fst

theorem addToGroups_eq (gs : List (Option (Option Nat) × List Entry))
    (k : Option (Option Nat)) (e : Entry) (hnd : (groupKeys gs).Nodup) :
    addToGroups k e gs =
      if k ∈ groupKeys gs then
        gs.map (fun g => if g.1 = k then (g.1, g.2 ++ [e]) else g)
      else gs ++ [(k, [e])] := by
  induction gs with
  | nil => simp [addToGroups, groupKeys]
  | cons hd rest ih =>
    obtain ⟨k', g⟩ := hd
    simp only [groupKeys, List.map_cons, List.nodup_cons] at hnd
    obtain ⟨hk', hndrest⟩ := hnd
    simp only [addToGroups]
    by_cases hkk : k' = k
    · subst hkk
      have hmem : k' ∈ groupKeys ((k', g) :: rest) := by simp [groupKeys]
      rw [if_pos rfl, if_pos hmem]
      simp only [List.map_cons, if_pos rfl]
      congr 1
      have hrest : ∀ p ∈ rest, (if p.1 = k' then (p.1, p.2 ++ [e]) else p) = p := by
        intro p hp
        have : p.1 ≠ k' := by
          intro hc
          exact hk' (hc ▸ List.mem_map_of_mem Prod.fst hp)
        simp [this]
      exact ((List.map_congr_left hrest).trans (List.map_id rest)).symm
    · rw [if_neg hkk, ih hndrest]
      have hmem : k ∈ groupKeys ((k', g) :: rest) ↔ k ∈ groupKeys rest := by
        simp only [groupKeys, List.map_cons, List.mem_cons]
        constructor
        · rintro (rfl | h)
          · exact absurd rfl hkk
          · exact h
        · exact Or.inr
      by_cases hk : k ∈ groupKeys rest
      · rw [if_pos hk, if_pos (hmem.2 hk)]
        simp only [List.map_cons]
        rw [if_neg hkk]
      · rw [if_neg hk, if_neg (fun h => hk (hmem.1 h))]
        simp

theorem groupKeys_mkGroups (l : List Entry) :
    groupKeys (mkGroups l) = uniqFirst (l.map keyOf) := by
  unfold groupKeys mkGroups
  rw [List.map_map]
  exact List.map_id _

theorem addToGroups_mkGroups (done : List Entry) (e : Entry) :
    addToGroups (keyOf e) e (mkGroups done) = mkGroups (done ++ [e]) := by
  have hnd : (groupKeys (mkGroups done)).Nodup := by
    rw [groupKeys_mkGroups]; exact nodup_uniqFirst
  rw [addToGroups_eq _ _ _ hnd, groupKeys_mkGroups]
  have hmapapp : (done ++ [e]).map keyOf = done.map keyOf ++ [keyOf e] := by
    simp
  by_cases hmem : keyOf e ∈ done.map keyOf
  · rw [if_pos (mem_uniqFirst.2 hmem)]
    unfold mkGroups
    rw [hmapapp, uniqFirst_append_singleton, if_pos hmem, List.map_map]
    apply List.map_congr_left
    intro k hk
    simp only [Function.comp_apply]
    by_cases hke : k = keyOf e
    · subst hke
      rw [if_pos rfl, List.filter_append]
      simp
    · rw [if_neg hke, List.filter_append]
      have hke' : ¬ keyOf e = k := fun h => hke h.symm
      have : [e].filter (fun x => decide (keyOf x = k)) = [] := by
        simp [hke']
      rw [this, List.append_nil]
  · rw [if_neg (fun h => hmem (mem_uniqFirst.1 h))]
    unfold mkGroups
    rw [hmapapp, uniqFirst_append_singleton, if_neg hmem, List.map_append]
    congr 1
    · apply List.map_congr_left
      intro k hk
      rw [List.filter_append]
      have hke : ¬ keyOf e = k := by
        intro h
        exact hmem (h ▸ hk |> mem_uniqFirst.1)
      have : [e].filter (fun x => decide (keyOf x = k)) = [] := by
        simp [hke]
      rw [this, List.append_nil]
    · simp only [List.map_cons, List.map_nil]
      congr 1
      have hfe : done.filter (fun x => decide (keyOf x = keyOf e)) = [] := by
        rw [List.filter_eq_nil]
        intro x hx
        simp only [decide_eq_true_eq]
        intro h
        exact hmem (h ▸ List.mem_map_of_mem keyOf hx)
      rw [List.filter_append, hfe]
      simp

theorem foldl_addToGroups (entries done : List Entry) :
    entries.foldl (fun gs e => addToGroups (keyOf e) e gs) (mkGroups done) =
      mkGroups (done ++ entries) := by
  induction entries generalizing done with
  | nil => simp
  | cons e es ih =>
    simp only [List.foldl_cons]
    rw [addToGroups_mkGroups, ih]
    simp

/-- The `contactGroups` map of `handleContactChainMerging`, characterized:
one group per distinct key in first-occurrence order, with exactly the
entries carrying that key. -/
theorem groupByPrimary_eq (entries : List Entry) :
    groupByPrimary entries = mkGroups entries := by
  have h0 : mkGroups [] = [] := rfl
  have := foldl_addToGroups entries []
  rw [h0] at this
  simpa [groupByPrimary] using this

/-! ### Characterization of the demotion loop -/

theorem mergedRow_nil (A t : Nat) (c : Contact) : mergedRow [] A t c = c := by
  simp [mergedRow]
  cases c.linkedId <;> simp

theorem convert_noFail (db : DB) (k : Option (Option Nat)) (A : Nat)
    (hf : db.failAt = []) :
    convertPrimaryToSecondary db k A =
      ({db with tick := db.tick + 2, store := {db.store with
        rows := repointStmt (demotePrimaryStmt db.store.rows k A db.store.now)
          k A db.store.now}}, none) := by
  unfold convertPrimaryToSecondary runStmt
  simp [hf]

theorem mergedRow_demoted (S : List Nat) (A t : Nat) (c : Contact) :
    mergedRow S A t
        {c with linkedId := some A, linkPrecedence := .secondary, updatedAt := t} =
      {c with linkedId := some A, linkPrecedence := .secondary, updatedAt := t} := by
  simp only [mergedRow]
  split
  · rfl
  · split
    · rfl
    · rfl

theorem mergedRow_repointed (S : List Nat) (A t : Nat) (c : Contact)
    (hid : c.id ∉ S) :
    mergedRow S A t {c with linkedId := some A, updatedAt := t} =
      {c with linkedId := some A, updatedAt := t} := by
  simp only [mergedRow]
  rw [if_neg (by simpa using hid)]
  split
  · rfl
  · rfl

/-- One demotion transaction followed by the rest of the per-row merge
equals the per-row merge with the demoted key added in front. -/
theorem mergedRow_convert_row (S : List Nat) (A t n : Nat) (hnA : n ≠ A) (c : Contact) :
    mergedRow S A t (repointOne n A t (demoteOne n A t c)) =
      mergedRow (n :: S) A t c := by
  by_cases h1 : c.id = n
  · by_cases h3 : c.id ∈ S <;>
      simp [demoteOne, repointOne, mergedRow, h1, h3, Ne.symm hnA]
  · by_cases h2 : c.linkedId = some n
    · by_cases h3 : c.id ∈ S <;>
        simp [demoteOne, repointOne, mergedRow, h1, h2, h3]
    · cases hl : c.linkedId with
      | none =>
        by_cases h3 : c.id ∈ S <;>
          simp [demoteOne, repointOne, mergedRow, h1, h2, h3, hl]
      | some m =>
        have hmn : ¬ m = n := by
          intro h
          exact h2 (by rw [hl, h])
        by_cases h3 : c.id ∈ S
        · simp [demoteOne, repointOne, mergedRow, h1, h2, h3, hl, hmn]
        · by_cases h4 : m ∈ S <;>
            simp [demoteOne, repointOne, mergedRow, h1, h2, h3, h4, hl, hmn]

theorem map_mergedRow_convert (S : List Nat) (A t n : Nat) (hnA : n ≠ A)
    (rows : List Contact) :
    (repointStmt (demotePrimaryStmt rows (some (some n)) A t) (some (some n)) A t).map
      (mergedRow S A t) = rows.map (mergedRow (n :: S) A t) := by
  unfold demotePrimaryStmt repointStmt
  rw [List.map_map, List.map_map]
  apply List.map_congr_left
  intro c _
  exact mergedRow_convert_row S A t n hnA c

/-- With no faults scheduled, the demotion loop applies `mergedRow` — the
demote / re-point / leave transform for the loop's demoted keys — to every
row, and succeeds. -/
theorem demoteLoop_noFail (groups : List (Option (Option Nat) × List Entry)) (db : DB)
    (A : Nat) (hf : db.failAt = []) :
    ∃ t, demoteLoop db groups A =
      ({db with tick := t, store := {db.store with
        rows := db.store.rows.map
          (mergedRow (demotedKeys (groupKeys groups) A) A db.store.now)}}, none) := by
  induction groups generalizing db with
  | nil =>
    refine ⟨db.tick, ?_⟩
    have hrows : db.store.rows.map
        (mergedRow (demotedKeys (groupKeys ([] : List (Option (Option Nat) × List Entry))) A)
          A db.store.now) = db.store.rows := by
      have h := fun c (_ : c ∈ db.store.rows) => mergedRow_nil A db.store.now c
      have h2 : demotedKeys (groupKeys ([] : List (Option (Option Nat) × List Entry))) A =
          [] := by
        simp [groupKeys, demotedKeys]
      rw [h2]
      exact (List.map_congr_left h).trans (List.map_id _)
    rw [demoteLoop, hrows]
  | cons hd rest ih =>
    obtain ⟨k, g⟩ := hd
    rw [demoteLoop]
    by_cases hk : k = some (some A)
    · rw [if_pos hk]
      obtain ⟨t, ht⟩ := ih db hf
      refine ⟨t, ?_⟩
      rw [ht]
      have : demotedKeys (groupKeys ((k, g) :: rest)) A =
          demotedKeys (groupKeys rest) A := by
        simp [groupKeys, demotedKeys, hk]
      rw [this]
    · rw [if_neg hk]
      rw [convert_noFail db k A hf]
      have hf' : ({db with tick := db.tick + 2, store := {db.store with
          rows := repointStmt (demotePrimaryStmt db.store.rows k A db.store.now)
            k A db.store.now}} : DB).failAt = [] := hf
      obtain ⟨t, ht⟩ := ih _ hf'
      refine ⟨t, ?_⟩
      simp only []
      rw [ht]
      match k, hk with
      | none, _ =>
        simp only [repointStmt, demotePrimaryStmt, demotedKeys, groupKeys, List.map_cons,
          List.filterMap_cons]
      | some none, _ =>
        simp only [repointStmt, demotePrimaryStmt, demotedKeys, groupKeys, List.map_cons,
          List.filterMap_cons]
      | some (some n), hk =>
        have hnA : n ≠ A := by
          intro h
          exact hk (by rw [h])
        have hrows : (repointStmt (demotePrimaryStmt db.store.rows (some (some n)) A
            db.store.now) (some (some n)) A db.store.now).map
              (mergedRow (demotedKeys (groupKeys rest) A) A db.store.now) =
            db.store.rows.map
              (mergedRow (n :: demotedKeys (groupKeys rest) A) A db.store.now) :=
          map_mergedRow_convert _ A db.store.now n hnA db.store.rows
        have hkeys : demotedKeys (groupKeys ((some (some n), g) :: rest)) A =
            n :: demotedKeys (groupKeys rest) A := by
          simp [groupKeys, demotedKeys, hnA]
        rw [hkeys]
        simp only [] at hrows ⊢
        rw [hrows]

/-! ### No-fault characterizations of the single statements -/

theorem findExistingContacts_noFail (db : DB) (e p : Option String)
    (hf : db.failAt = []) :
    findExistingContacts db e p =
      ({db with tick := db.tick + 1}, .ok (finderQuery db.store.rows e p)) := by
  simp [findExistingContacts, runStmt, hf]

theorem getAllLinkedContacts_noFail (db : DB) (contacts : List Contact)
    (hf : db.failAt = []) (hne : contacts ≠ [])
    (hpids : primaryIdsOf contacts ≠ []) :
    getAllLinkedContacts db contacts =
      ({db with tick := db.tick + 1},
       .ok (expandQuery db.store.rows (primaryIdsOf contacts))) := by
  simp [getAllLinkedContacts, runStmt, hf, hne, hpids]

theorem createPrimaryContact_noFail (db : DB) (e p : Option String)
    (hf : db.failAt = []) :
    createPrimaryContact db e p =
      ({db with tick := db.tick + 1, store := {db.store with
        rows := db.store.rows ++ [⟨db.store.nextId, norm p, norm e, none, .primary,
          db.store.now, db.store.now, none⟩]
        nextId := db.store.nextId + 1}},
       .ok ⟨db.store.nextId, norm p, norm e, none, .primary,
          db.store.now, db.store.now, none⟩) := by
  simp [createPrimaryContact, runStmt, hf]

theorem createSecondaryContact_noFail (db : DB) (e p : Option String) (lid : Nat)
    (hf : db.failAt = []) :
    createSecondaryContact db e p lid =
      ({db with tick := db.tick + 1, store := {db.store with
        rows := db.store.rows ++ [⟨db.store.nextId, norm p, norm e, some lid, .secondary,
          db.store.now, db.store.now, none⟩]
        nextId := db.store.nextId + 1}},
       .ok [⟨db.store.nextId, norm p, norm e, some lid, .secondary,
          db.store.now, db.store.now, none⟩]) := by
  simp [createSecondaryContact, runStmt, hf]

theorem getAllLinkedContactsById_noFail (db : DB) (pid : Nat)
    (hf : db.failAt = []) :
    getAllLinkedContactsById db pid =
      ({db with tick := db.tick + 1},
       .ok (sortByKey (fun c => c.createdAt) (db.store.rows.filter (byIdPred pid)))) := by
  simp [getAllLinkedContactsById, runStmt, hf]

/-! ### Helper lemmas about selection and response building -/

theorem norm_norm (o : Option String) : norm (norm o) = norm o := by
  cases o with
  | none => rfl
  | some s =>
    by_cases h : s = "" <;> simp [norm, h]

/-- The head of the stable `createdAt` sort of a tie-ordered list attains
the minimum of the lexicographic (`createdAt`, id) order. -/
theorem sortByKey_head_min_tie {l : List Contact} {c : Contact}
    (hTie : TieOrdered l)
    (hc : (sortByKey (fun x => x.createdAt) l).head? = some c) :
    ∀ d ∈ l, c.createdAt < d.createdAt ∨ (c.createdAt = d.createdAt ∧ c.id ≤ d.id) := by
  intro d hd
  have hle : c.createdAt ≤ d.createdAt := head_sortByKey_min hc hd
  by_cases heq : c.createdAt = d.createdAt
  · right
    refine ⟨heq, ?_⟩
    have hfirst := head_sortByKey_first hc
    unfold TieOrdered at hTie
    have hrel := head_filter_rel hTie hfirst hd (by simp [heq.symm])
    rcases hrel with rfl | h
    · exact Nat.le_refl _
    · exact h heq
  · left
    omega

theorem filterMap_entryPrimary_map (l : List Contact) :
    (l.map Entry.contact).filterMap entryPrimary? =
      l.filter (fun c => decide (c.linkPrecedence = .primary)) := by
  induction l with
  | nil => rfl
  | cons c cs ih =>
    simp only [List.map_cons, List.filterMap_cons, List.filter_cons]
    cases hc : c.linkPrecedence <;> simp [entryPrimary?, hc, ih]

theorem filterMap_entrySecondary_map (l : List Contact) :
    (l.map Entry.contact).filterMap entrySecondary? =
      l.filter (fun c => decide (c.linkPrecedence = .secondary)) := by
  induction l with
  | nil => rfl
  | cons c cs ih =>
    simp only [List.map_cons, List.filterMap_cons, List.filter_cons]
    cases hc : c.linkPrecedence <;> simp [entrySecondary?, hc, ih]

theorem buildResponse_single_primary (c : Contact) (hc : c.linkPrecedence = .primary) :
    buildResponse [Entry.contact c] =
      .ok ⟨⟨c.id, (norm c.email).toList, (norm c.phoneNumber).toList, []⟩⟩ := by
  unfold buildResponse
  have h1 : ([Entry.contact c].filterMap entryPrimary?) = [c] := by
    simp [entryPrimary?, hc]
  have h2 : ([Entry.contact c].filterMap entrySecondary?) = [] := by
    simp [entrySecondary?, hc]
  rw [h1, h2]
  simp only [List.head?_cons, List.map_nil]
  cases he : norm c.email <;> cases hp : norm c.phoneNumber <;>
    simp [uniqFirst, uniqFirstAux, he, hp]

/-! ### Query membership and well-formedness consequences -/

theorem mem_finderQuery {rows : List Contact} {e p : Option String} {c : Contact} :
    c ∈ finderQuery rows e p ↔ c ∈ rows ∧ matchPred e p c = true := by
  rw [finderQuery, mem_sortByKey, List.mem_filter]

theorem mem_expandQuery {rows : List Contact} {pids : List Nat} {c : Contact} :
    c ∈ expandQuery rows pids ↔ c ∈ rows ∧ expandPred pids c = true := by
  rw [expandQuery, mem_sortByKey, List.mem_filter]

theorem head?_mem {α : Type} {l : List α} {c : α} (h : l.head? = some c) : c ∈ l := by
  cases l with
  | nil => cases h
  | cons x xs =>
    simp only [List.head?_cons, Option.some.injEq] at h
    exact h ▸ List.mem_cons_self x xs

theorem head?_eq_of_all_eq {α : Type} {l : List α} {x : α} (hne : l ≠ [])
    (hall : ∀ y ∈ l, y = x) : l.head? = some x := by
  cases l with
  | nil => exact absurd rfl hne
  | cons a as => simp [hall a (List.mem_cons_self a as)]

theorem matchPred_iff {e p : Option String} {c : Contact} :
    matchPred e p c = true ↔
      ((∃ v, norm e = some v ∧ c.email = some v) ∨
        (∃ v, norm p = some v ∧ c.phoneNumber = some v)) ∧ c.deletedAt = none := by
  unfold matchPred
  cases he : norm e <;> cases hp : norm p <;> simp

theorem expandPred_iff {pids : List Nat} {c : Contact} :
    expandPred pids c = true ↔
      (c.id ∈ pids ∨ (∃ m, c.linkedId = some m ∧ m ∈ pids)) ∧ c.deletedAt = none := by
  unfold expandPred
  cases hl : c.linkedId <;> simp

theorem byIdPred_iff {pid : Nat} {c : Contact} :
    byIdPred pid c = true ↔
      (c.id = pid ∨ c.linkedId = some pid) ∧ c.deletedAt = none := by
  unfold byIdPred
  simp

theorem row_id_unique {s : Store} (hwf : WF s) {c d : Contact}
    (hc : c ∈ s.rows) (hd : d ∈ s.rows) (h : c.id = d.id) : c = d := by
  obtain ⟨-, hNodup, -, -⟩ := hwf
  exact List.inj_on_of_nodup_map hNodup hc hd h

/-- Under WF, every non-deleted contact contributes a primary id — its own
when primary, its linked primary's otherwise — and that id denotes a live
primary row. -/
theorem primaryKeyOf_of_WF {s : Store} (hwf : WF s) {c : Contact} (hc : c ∈ s.rows)
    (hdel : c.deletedAt = none) :
    ∃ n pr, primaryKeyOf c = some n ∧ pr ∈ s.rows ∧ pr.id = n ∧
      pr.linkPrecedence = .primary ∧ pr.deletedAt = none ∧
      (c.id = n ∨ c.linkedId = some n) := by
  obtain ⟨hIds, hNodup, hPrim, hSec, -⟩ := hwf
  cases hcp : c.linkPrecedence with
  | primary =>
    refine ⟨c.id, c, ?_, hc, rfl, hcp, hdel, Or.inl rfl⟩
    simp [primaryKeyOf, hcp]
  | secondary =>
    obtain ⟨pid, hlid, pr, hpr, hprid, hprp, hprd⟩ := hSec c hc hcp
    refine ⟨pid, pr, ?_, hpr, hprid, hprp, hprd, Or.inr hlid⟩
    have hpid1 : 1 ≤ pid := hprid ▸ (hIds pr hpr).1
    simp [primaryKeyOf, hcp, hlid]
    omega

theorem one_lt_length_of_two_mem {α : Type} {l : List α} {a b : α}
    (hnd : l.Nodup) (ha : a ∈ l) (hb : b ∈ l) (hab : a ≠ b) : 1 < l.length := by
  cases l with
  | nil => cases ha
  | cons x xs =>
    cases xs with
    | nil =>
      simp only [List.mem_singleton] at ha hb
      exact absurd (ha.trans hb.symm) hab
    | cons y ys => simp [Nat.lt_of_sub_eq_succ]

theorem mem_demotedKeys {ks : List (Option (Option Nat))} {A n : Nat} :
    n ∈ demotedKeys ks A ↔ some (some n) ∈ ks ∧ n ≠ A := by
  unfold demotedKeys
  rw [List.mem_filterMap]
  constructor
  · rintro ⟨k, hk, hfk⟩
    match k, hfk with
    | some (some m), hfk =>
      have hfk' : (if m = A then (none : Option Nat) else some m) = some n := hfk
      by_cases hmA : m = A
      · rw [if_pos hmA] at hfk'
        cases hfk'
      · rw [if_neg hmA] at hfk'
        cases hfk'
        exact ⟨hk, hmA⟩
  · rintro ⟨hk, hnA⟩
    exact ⟨some (some n), hk, by simp [hnA]⟩

theorem mem_primaryIdsOf {contacts : List Contact} {n : Nat} :
    n ∈ primaryIdsOf contacts ↔ ∃ c ∈ contacts, primaryKeyOf c = some n := by
  rw [primaryIdsOf, mem_uniqFirst, List.mem_filterMap]

/-- Under WF, every member of the expansion carries a numeric group key
belonging to the collected primary ids. -/
theorem mem_expandQuery_keyOf {s : Store} (hwf : WF s) {pids : List Nat}
    (hp : ∀ n ∈ pids, ∃ pr ∈ s.rows, pr.id = n ∧ pr.linkPrecedence = .primary ∧
      pr.deletedAt = none)
    {c : Contact} (hc : c ∈ expandQuery s.rows pids) :
    ∃ n ∈ pids, keyOf (.contact c) = some (some n) ∧
      (c.linkPrecedence = .primary → c.id = n) := by
  obtain ⟨hrow, hpred⟩ := mem_expandQuery.1 hc
  obtain ⟨hor, hdel⟩ := expandPred_iff.1 hpred
  cases hcp : c.linkPrecedence with
  | primary =>
    have hlid : c.linkedId = none := hwf.2.2.1 c hrow hcp
    rcases hor with hid | ⟨m, hm, -⟩
    · exact ⟨c.id, hid, by simp [keyOf, hcp], fun _ => rfl⟩
    · rw [hlid] at hm
      cases hm
  | secondary =>
    rcases hor with hid | ⟨m, hm, hmp⟩
    · obtain ⟨pr, hpr, hprid, hprp, -⟩ := hp c.id hid
      have : c = pr := row_id_unique hwf hrow hpr hprid.symm
      rw [this, hprp] at hcp
      cases hcp
    · refine ⟨m, hmp, ?_, ?_⟩
      · simp [keyOf, hcp, hm]
      · intro h
        simp at h

theorem findPrimaryInGroup_filter_eq {entries : List Entry} {n : Nat} {pr : Contact}
    (hmem : Entry.contact pr ∈ entries) (hpr : pr.linkPrecedence = .primary)
    (hid : pr.id = n)
    (huniq : ∀ c : Contact, Entry.contact c ∈ entries → c.linkPrecedence = .primary →
      keyOf (.contact c) = some (some n) → c = pr) :
    findPrimaryInGroup
      (entries.filter (fun en => decide (keyOf en = some (some n)))) = some pr := by
  rw [findPrimaryInGroup]
  apply head?_eq_of_all_eq
  · have hprm : pr ∈ (entries.filter
        (fun en => decide (keyOf en = some (some n)))).filterMap entryPrimary? := by
      rw [List.mem_filterMap]
      refine ⟨.contact pr, ?_, by simp [entryPrimary?, hpr]⟩
      rw [List.mem_filter]
      exact ⟨hmem, by simp [keyOf, hpr, hid]⟩
    exact List.ne_nil_of_mem hprm
  · intro y hy
    rw [List.mem_filterMap] at hy
    obtain ⟨en, hen, hpy⟩ := hy
    rw [List.mem_filter] at hen
    obtain ⟨hen, hkey⟩ := hen
    match en, hpy with
    | .contact c, hpy =>
      rw [entryPrimary?] at hpy
      by_cases hcp : c.linkPrecedence = .primary
      · rw [if_pos hcp] at hpy
        cases hpy
        exact huniq y hen hcp (by simpa using hkey)
      · rw [if_neg hcp] at hpy
        cases hpy

theorem findPrimaryInGroup_undefined_key (entries : List Entry) :
    findPrimaryInGroup
      (entries.filter (fun en => decide (keyOf en = none))) = none := by
  rw [findPrimaryInGroup]
  have h : (entries.filter (fun en => decide (keyOf en = none))).filterMap
      entryPrimary? = [] := by
    rw [List.filterMap_eq_nil]
    intro en hen
    rw [List.mem_filter] at hen
    match en, hen with
    | .contact c, hen =>
      exfalso
      have := hen.2
      rw [keyOf] at this
      by_cases hcp : c.linkPrecedence = .primary
      · rw [if_pos hcp] at this
        simp at this
      · rw [if_neg hcp] at this
        simp at this
    | .rowsArray cs, _ => rfl
  rw [h]
  rfl

/-- Central analysis of `handleContactChainMerging` on a no-fault database:
for an entry list whose keys are the given primary ids (plus possibly the
`undefined` key of the pushed rows array), the call succeeds, applies the
per-row merge transform for the non-surviving ids, and the surviving
primary is a `createdAt`-minimal primary entry. -/
theorem handleMerge_analysis (db : DB) (entries : List Entry) (hf : db.failAt = [])
    (pids : List Nat) (hpne : pids ≠ []) (hnodup : pids.Nodup)
    (hkeys : ∀ en ∈ entries, keyOf en = none ∨ ∃ n ∈ pids, keyOf en = some (some n))
    (hpr : ∀ n ∈ pids, ∃ c, Entry.contact c ∈ entries ∧
      c.linkPrecedence = .primary ∧ c.id = n)
    (huniq : ∀ c c', Entry.contact c ∈ entries → Entry.contact c' ∈ entries →
      c.linkPrecedence = .primary → c'.linkPrecedence = .primary → c.id = c'.id →
      c = c') :
    ∃ (A : Contact) (demoted : List Nat) (t : Nat) (out : List Entry),
      handleContactChainMerging db entries =
        ({db with tick := t, store := {db.store with
          rows := db.store.rows.map (mergedRow demoted A.id db.store.now)}}, .ok out) ∧
      Entry.contact A ∈ entries ∧ A.linkPrecedence = .primary ∧ A.id ∈ pids ∧
      (∀ c, Entry.contact c ∈ entries → c.linkPrecedence = .primary →
        A.createdAt ≤ c.createdAt) ∧
      (∀ n, n ∈ demoted ↔ n ∈ pids ∧ n ≠ A.id) ∧
      (out = (sortByKey (fun c => c.createdAt)
          ((db.store.rows.map (mergedRow demoted A.id db.store.now)).filter
            (byIdPred A.id))).map Entry.contact ∨
        (¬ 1 < (groupByPrimary entries).length ∧ demoted = [] ∧
          db.store.rows.map (mergedRow demoted A.id db.store.now) = db.store.rows ∧
          out = entries ∧ pids = [A.id])) := by
  -- key and candidate plumbing
  have hkeyPrim : ∀ c : Contact, Entry.contact c ∈ entries →
      c.linkPrecedence = .primary → keyOf (.contact c) = some (some c.id) := by
    intro c _ hcp
    rw [keyOf, if_pos hcp]
  have hkeyPid : ∀ c : Contact, Entry.contact c ∈ entries →
      c.linkPrecedence = .primary → c.id ∈ pids := by
    intro c hc hcp
    rcases hkeys _ hc with h0 | ⟨n, hn, hkn⟩
    · rw [hkeyPrim c hc hcp] at h0
      cases h0
    · rw [hkeyPrim c hc hcp] at hkn
      have : c.id = n := by
        simpa using hkn
      exact this ▸ hn
  have hFsome : ∀ n ∈ pids, ∃ c, Entry.contact c ∈ entries ∧
      c.linkPrecedence = .primary ∧ c.id = n ∧
      findPrimaryInGroup
        (entries.filter (fun en => decide (keyOf en = some (some n)))) = some c := by
    intro n hn
    obtain ⟨c, hc, hcp, hcid⟩ := hpr n hn
    refine ⟨c, hc, hcp, hcid, findPrimaryInGroup_filter_eq hc hcp hcid ?_⟩
    intro c' hc' hcp' hk'
    rw [hkeyPrim c' hc' hcp'] at hk'
    have hcid' : c'.id = n := by simpa using hk'
    exact huniq c' c hc' hc hcp' hcp (hcid'.trans hcid.symm)
  have hcands : (groupByPrimary entries).filterMap (fun g => findPrimaryInGroup g.2) =
      (uniqFirst (entries.map keyOf)).filterMap
        (fun k => findPrimaryInGroup
          (entries.filter (fun en => decide (keyOf en = k)))) := by
    rw [groupByPrimary_eq, mkGroups, List.filterMap_map]
    rfl
  have hssn_mem : ∀ n ∈ pids, some (some n) ∈ uniqFirst (entries.map keyOf) := by
    intro n hn
    obtain ⟨c, hc, hcp, hcid⟩ := hpr n hn
    rw [mem_uniqFirst]
    exact List.mem_map.2 ⟨.contact c, hc, by rw [hkeyPrim c hc hcp, hcid]⟩
  have hcand_mem : ∀ n ∈ pids, ∃ c,
      c ∈ (groupByPrimary entries).filterMap (fun g => findPrimaryInGroup g.2) ∧
      Entry.contact c ∈ entries ∧ c.linkPrecedence = .primary ∧ c.id = n := by
    intro n hn
    obtain ⟨c, hc, hcp, hcid, hF⟩ := hFsome n hn
    refine ⟨c, ?_, hc, hcp, hcid⟩
    rw [hcands]
    exact List.mem_filterMap.2 ⟨some (some n), hssn_mem n hn, hF⟩
  have hcand_char : ∀ y ∈ (groupByPrimary entries).filterMap
      (fun g => findPrimaryInGroup g.2),
      Entry.contact y ∈ entries ∧ y.linkPrecedence = .primary ∧ y.id ∈ pids := by
    intro y hy
    rw [hcands] at hy
    obtain ⟨k, hk, hFk⟩ := List.mem_filterMap.1 hy
    have hk' : k ∈ entries.map keyOf := mem_uniqFirst.1 hk
    obtain ⟨en, hen, hke⟩ := List.mem_map.1 hk'
    rcases hkeys en hen with h0 | ⟨n, hn, hkn⟩
    · rw [← hke, h0, findPrimaryInGroup_undefined_key] at hFk
      cases hFk
    · rw [← hke, hkn] at hFk
      obtain ⟨c, hc, hcp, hcid, hF⟩ := hFsome n hn
      rw [hF] at hFk
      cases hFk
      exact ⟨hc, hcp, hcid ▸ hn⟩
  -- membership of keys characterizes pids
  have hssn_iff : ∀ n, some (some n) ∈ uniqFirst (entries.map keyOf) ↔ n ∈ pids := by
    intro n
    constructor
    · intro h
      obtain ⟨en, hen, hke⟩ := List.mem_map.1 (mem_uniqFirst.1 h)
      rcases hkeys en hen with h0 | ⟨m, hm, hkm⟩
      · rw [h0] at hke
        cases hke
      · rw [hkm] at hke
        have : m = n := by simpa using hke
        exact this ▸ hm
    · exact hssn_mem n
  obtain ⟨n₀, hn₀⟩ : ∃ n, n ∈ pids := by
    cases hp : pids with
    | nil => exact absurd hp hpne
    | cons a l => exact ⟨a, hp ▸ List.mem_cons_self a l⟩
  by_cases hlen : 1 < (groupByPrimary entries).length
  · -- merge branch: compute the survivor
    obtain ⟨c₀, hc₀cand, hc₀c, hc₀p, hc₀id⟩ := hcand_mem n₀ hn₀
    have hcne : (sortByKey (fun c => c.createdAt)
        ((groupByPrimary entries).filterMap (fun g => findPrimaryInGroup g.2))) ≠ [] := by
      intro hnil
      have : c₀ ∈ sortByKey (fun c => c.createdAt)
          ((groupByPrimary entries).filterMap (fun g => findPrimaryInGroup g.2)) :=
        mem_sortByKey.2 hc₀cand
      rw [hnil] at this
      cases this
    obtain ⟨A, hA⟩ : ∃ A, survivingPrimary (groupByPrimary entries) = some A := by
      rw [survivingPrimary]
      cases hs : (sortByKey (fun c => c.createdAt)
          ((groupByPrimary entries).filterMap (fun g => findPrimaryInGroup g.2))).head? with
      | none =>
        exfalso
        apply hcne
        cases hl : sortByKey (fun c => c.createdAt)
            ((groupByPrimary entries).filterMap (fun g => findPrimaryInGroup g.2)) with
        | nil => rfl
        | cons x xs => rw [hl] at hs; cases hs
      | some A => exact ⟨A, rfl⟩
    have hAmem : A ∈ (groupByPrimary entries).filterMap
        (fun g => findPrimaryInGroup g.2) := by
      rw [survivingPrimary] at hA
      exact mem_sortByKey.1 (head?_mem hA)
    obtain ⟨hAent, hAprim, hApid⟩ := hcand_char A hAmem
    have hAmin : ∀ c, Entry.contact c ∈ entries → c.linkPrecedence = .primary →
        A.createdAt ≤ c.createdAt := by
      intro c hc hcp
      obtain ⟨c', hc'cand, hc'ent, hc'p, hc'id⟩ := hcand_mem c.id (hkeyPid c hc hcp)
      have : c' = c := huniq c' c hc'ent hc hc'p hcp hc'id
      subst this
      rw [survivingPrimary] at hA
      exact head_sortByKey_min hA hc'cand
    -- run the demotion loop and the re-read
    obtain ⟨t, ht⟩ := demoteLoop_noFail (groupByPrimary entries) db A.id hf
    have hdem : ∀ n, n ∈ demotedKeys (groupKeys (groupByPrimary entries)) A.id ↔
        n ∈ pids ∧ n ≠ A.id := by
      intro n
      rw [mem_demotedKeys, groupByPrimary_eq, groupKeys_mkGroups, hssn_iff]
    refine ⟨A, demotedKeys (groupKeys (groupByPrimary entries)) A.id, t + 1,
      (sortByKey (fun c => c.createdAt)
        ((db.store.rows.map (mergedRow
          (demotedKeys (groupKeys (groupByPrimary entries)) A.id) A.id
          db.store.now)).filter (byIdPred A.id))).map Entry.contact,
      ?_, hAent, hAprim, hApid, hAmin, hdem, Or.inl rfl⟩
    rw [handleContactChainMerging]
    dsimp only
    rw [if_pos hlen, hA]
    dsimp only
    rw [ht]
    dsimp only
    rw [getAllLinkedContactsById_noFail ({db with tick := t, store := {db.store with
      rows := db.store.rows.map (mergedRow
        (demotedKeys (groupKeys (groupByPrimary entries)) A.id) A.id db.store.now)}})
      A.id hf]
  · -- no merge: the id set is a singleton and nothing changes
    have hsingle : ∀ n m, n ∈ pids → m ∈ pids → n = m := by
      intro n m hn hm
      by_contra hnm
      have hnd : (groupKeys (groupByPrimary entries)).Nodup := by
        rw [groupByPrimary_eq, groupKeys_mkGroups]
        exact nodup_uniqFirst
      have h1 : some (some n) ∈ groupKeys (groupByPrimary entries) := by
        rw [groupByPrimary_eq, groupKeys_mkGroups]
        exact hssn_mem n hn
      have h2 : some (some m) ∈ groupKeys (groupByPrimary entries) := by
        rw [groupByPrimary_eq, groupKeys_mkGroups]
        exact hssn_mem m hm
      have hne2 : (some (some n) : Option (Option Nat)) ≠ some (some m) := by
        simp [hnm]
      have := one_lt_length_of_two_mem hnd h1 h2 hne2
      rw [groupKeys, List.length_map] at this
      exact hlen this
    obtain ⟨A, hAent, hAprim, hAid⟩ := hpr n₀ hn₀
    have h₁ : pids = [n₀] := by
      cases hp : pids with
      | nil => exact absurd hp hpne
      | cons a l =>
        have ha : a = n₀ := hsingle a n₀ (by rw [hp]; exact List.mem_cons_self a l) hn₀
        have hl : l = [] := by
          cases hlc : l with
          | nil => rfl
          | cons b bs =>
            exfalso
            have hb : b ∈ pids := by
              rw [hp, hlc]
              exact List.mem_cons_of_mem _ (List.mem_cons_self b bs)
            have hbn : b = n₀ := hsingle b n₀ hb hn₀
            have hnd := hnodup
            rw [hp, hlc] at hnd
            exact (List.nodup_cons.1 hnd).1
              (by rw [ha, hbn]; exact List.mem_cons_self _ _)
        rw [ha, hl]
    have hApids : pids = [A.id] := by
      rw [hAid]
      exact h₁
    have hmapid : db.store.rows.map (mergedRow [] A.id db.store.now) =
        db.store.rows :=
      (List.map_congr_left (fun c _ => mergedRow_nil A.id db.store.now c)).trans
        (List.map_id _)
    refine ⟨A, [], db.tick, entries, ?_, hAent, hAprim, ?_, ?_, ?_,
      Or.inr ⟨hlen, rfl, hmapid, rfl, hApids⟩⟩
    · have hdbeq : ({db with tick := db.tick, store := {db.store with
          rows := db.store.rows.map (mergedRow [] A.id db.store.now)}} : DB) = db := by
        rw [hmapid]
      rw [handleContactChainMerging]
      dsimp only
      rw [if_neg hlen, hdbeq]
    · rw [hApids]
      exact List.mem_cons_self _ _
    · intro c hc hcp
      have hcid : c.id ∈ pids := hkeyPid c hc hcp
      rw [hApids, List.mem_singleton] at hcid
      have : c = A := huniq c A hc hAent hcp hAprim hcid
      rw [this]
    · intro n
      simp only [List.not_mem_nil, false_iff]
      rintro ⟨hn, hna⟩
      rw [hApids, List.mem_singleton] at hn
      exact hna hn

theorem contact_mem_entries_map {X : List Contact} {c : Contact} :
    Entry.contact c ∈ X.map Entry.contact ↔ c ∈ X := by
  rw [List.mem_map]
  constructor
  · rintro ⟨x, hx, hxc⟩
    cases hxc
    exact hx
  · intro h
    exact ⟨c, h, rfl⟩

theorem contact_mem_entries_append {X cs : List Contact} {c : Contact} :
    Entry.contact c ∈ X.map Entry.contact ++ [Entry.rowsArray cs] ↔ c ∈ X := by
  rw [List.mem_append]
  constructor
  · rintro (h | h)
    · exact contact_mem_entries_map.1 h
    · simp at h
  · intro h
    exact Or.inl (contact_mem_entries_map.2 h)

theorem buildResponse_ok_of_primary {l : List Entry} {pr : Contact}
    (hmem : Entry.contact pr ∈ l) (hp : pr.linkPrecedence = .primary) :
    ∃ r, buildResponse l = .ok r := by
  rw [buildResponse]
  cases hh : (l.filterMap entryPrimary?).head? with
  | none =>
    exfalso
    have hprm : pr ∈ l.filterMap entryPrimary? :=
      List.mem_filterMap.2 ⟨.contact pr, hmem, by simp [entryPrimary?, hp]⟩
    have hne : l.filterMap entryPrimary? ≠ [] := List.ne_nil_of_mem hprm
    cases hl : l.filterMap entryPrimary? with
    | nil => exact hne hl
    | cons x xs => rw [hl] at hh; cases hh
  | some prim => exact ⟨_, rfl⟩

theorem expandPred_singleton (n : Nat) (c : Contact) :
    expandPred [n] c = byIdPred n c := by
  unfold expandPred byIdPred
  cases hl : c.linkedId <;> simp [List.mem_singleton]

/-- Full characterization of a no-fault `identify` run that found at least
one existing contact, over a well-formed store: the run succeeds; the store
becomes the old rows (plus the inserted secondary when the exact pair was
novel) transformed row-wise by the merge for the non-surviving primary ids;
the survivor `A` is a live primary of minimal `createdAt` among the touched
clusters' primaries; and the response is built from the re-read cluster of
`A`. -/
theorem identify_matched_noFail (db : DB) (e p : Option String)
    (hf : db.failAt = []) (hwf : WF db.store)
    (hv : (!truthy e && !truthy p) = false)
    (hM : finderQuery db.store.rows e p ≠ []) :
    ∃ (A : Contact) (demoted : List Nat) (ins : List Contact) (t : Nat)
      (r : IdentifyResponse),
      identify db e p =
        ({db with tick := t, store := {db.store with
          rows := (db.store.rows ++ ins).map (mergedRow demoted A.id db.store.now)
          nextId := db.store.nextId + ins.length}}, .ok r) ∧
      A ∈ db.store.rows ∧ A.linkPrecedence = .primary ∧ A.deletedAt = none ∧
      A.id ∈ primaryIdsOf (finderQuery db.store.rows e p) ∧
      (∀ n, n ∈ demoted ↔
        n ∈ primaryIdsOf (finderQuery db.store.rows e p) ∧ n ≠ A.id) ∧
      (∀ c ∈ db.store.rows, c.linkPrecedence = .primary →
        c.id ∈ primaryIdsOf (finderQuery db.store.rows e p) →
        A.createdAt ≤ c.createdAt) ∧
      (∀ n ∈ primaryIdsOf (finderQuery db.store.rows e p),
        ∃ pr ∈ db.store.rows, pr.id = n ∧ pr.linkPrecedence = .primary ∧
          pr.deletedAt = none) ∧
      (if needsNewSecondaryContact (expandQuery db.store.rows
          (primaryIdsOf (finderQuery db.store.rows e p))) e p = true
        then ∃ L ∈ db.store.rows, L.linkPrecedence = .primary ∧
          L.deletedAt = none ∧
          L.id ∈ primaryIdsOf (finderQuery db.store.rows e p) ∧
          ins = [⟨db.store.nextId, norm p, norm e, some L.id, .secondary,
            db.store.now, db.store.now, none⟩]
        else ins = []) ∧
      Except.ok r = buildResponse ((sortByKey (fun c => c.createdAt)
        (((db.store.rows ++ ins).map (mergedRow demoted A.id db.store.now)).filter
          (byIdPred A.id))).map Entry.contact) := by
  have hMc : ∀ c ∈ finderQuery db.store.rows e p,
      c ∈ db.store.rows ∧ c.deletedAt = none := by
    intro c hc
    have h := mem_finderQuery.1 hc
    exact ⟨h.1, (matchPred_iff.1 h.2).2⟩
  have hpids_live : ∀ n ∈ primaryIdsOf (finderQuery db.store.rows e p),
      ∃ pr ∈ db.store.rows, pr.id = n ∧ pr.linkPrecedence = .primary ∧
        pr.deletedAt = none := by
    intro n hn
    obtain ⟨c, hcM, hck⟩ := mem_primaryIdsOf.1 hn
    obtain ⟨hcrow, hcdel⟩ := hMc c hcM
    obtain ⟨n', pr, hk, hpr, hprid, hprp, hprd, -⟩ :=
      primaryKeyOf_of_WF hwf hcrow hcdel
    rw [hck] at hk
    have hnn : n = n' := by
      simpa using hk
    exact ⟨pr, hpr, by rw [hprid, hnn], hprp, hprd⟩
  have hpne : primaryIdsOf (finderQuery db.store.rows e p) ≠ [] := by
    obtain ⟨c₀, hc₀⟩ := List.exists_mem_of_ne_nil _ hM
    obtain ⟨hrow, hdel⟩ := hMc c₀ hc₀
    obtain ⟨n, pr, hk, -⟩ := primaryKeyOf_of_WF hwf hrow hdel
    exact List.ne_nil_of_mem (mem_primaryIdsOf.2 ⟨c₀, hc₀, hk⟩)
  have hnodup : (primaryIdsOf (finderQuery db.store.rows e p)).Nodup :=
    nodup_uniqFirst
  obtain ⟨n₀, hn₀⟩ : ∃ n, n ∈ primaryIdsOf (finderQuery db.store.rows e p) := by
    obtain ⟨n, hn⟩ := List.exists_mem_of_ne_nil _ hpne
    exact ⟨n, hn⟩
  obtain ⟨pr₀, hpr₀row, hpr₀id, hpr₀p, hpr₀d⟩ := hpids_live n₀ hn₀
  have hprX : ∀ {n : Nat} {pr : Contact}, n ∈ primaryIdsOf (finderQuery db.store.rows e p) →
      pr ∈ db.store.rows → pr.id = n → pr.deletedAt = none →
      pr ∈ expandQuery db.store.rows (primaryIdsOf (finderQuery db.store.rows e p)) := by
    intro n pr hn hrow hid hdel
    exact mem_expandQuery.2 ⟨hrow, expandPred_iff.2 ⟨Or.inl (hid ▸ hn), hdel⟩⟩
  have hXprim_pid : ∀ c ∈ expandQuery db.store.rows
      (primaryIdsOf (finderQuery db.store.rows e p)),
      c.linkPrecedence = .primary →
      c.id ∈ primaryIdsOf (finderQuery db.store.rows e p) := by
    intro c hc hcp
    obtain ⟨n, hn, hkey, hid⟩ := mem_expandQuery_keyOf hwf hpids_live hc
    exact (hid hcp) ▸ hn
  have hXlive : ∀ c ∈ expandQuery db.store.rows
      (primaryIdsOf (finderQuery db.store.rows e p)),
      c ∈ db.store.rows ∧ c.deletedAt = none := by
    intro c hc
    have h := mem_expandQuery.1 hc
    exact ⟨h.1, (expandPred_iff.1 h.2).2⟩
  -- start the symbolic run
  rw [identify, if_neg (by simp [hv])]
  rw [findExistingContacts_noFail db e p hf]
  dsimp only
  rw [if_neg hM]
  rw [getAllLinkedContacts_noFail ({db with tick := db.tick + 1})
    (finderQuery db.store.rows e p) hf hM hpne]
  dsimp only
  by_cases hNN : needsNewSecondaryContact (expandQuery db.store.rows
      (primaryIdsOf (finderQuery db.store.rows e p))) e p = true
  · -- a new secondary is inserted, then the merge handler runs
    rw [if_pos hNN]
    -- the oldest primary of the expansion exists
    have hX0 : pr₀ ∈ (expandQuery db.store.rows
        (primaryIdsOf (finderQuery db.store.rows e p))).filter
          (fun c => decide (c.linkPrecedence = .primary)) :=
      List.mem_filter.2 ⟨hprX hn₀ hpr₀row hpr₀id hpr₀d, by simp [hpr₀p]⟩
    obtain ⟨L, hLfind⟩ : ∃ L, findOldestPrimary (expandQuery db.store.rows
        (primaryIdsOf (finderQuery db.store.rows e p))) = some L := by
      rw [findOldestPrimary]
      cases hs : (sortByKey (fun c => c.createdAt)
          ((expandQuery db.store.rows
            (primaryIdsOf (finderQuery db.store.rows e p))).filter
              (fun c => decide (c.linkPrecedence = .primary)))).head? with
      | none =>
        exfalso
        have hm : pr₀ ∈ sortByKey (fun c => c.createdAt)
            ((expandQuery db.store.rows
              (primaryIdsOf (finderQuery db.store.rows e p))).filter
                (fun c => decide (c.linkPrecedence = .primary))) :=
          mem_sortByKey.2 hX0
        cases hl : sortByKey (fun c => c.createdAt)
            ((expandQuery db.store.rows
              (primaryIdsOf (finderQuery db.store.rows e p))).filter
                (fun c => decide (c.linkPrecedence = .primary))) with
        | nil => rw [hl] at hm; cases hm
        | cons x xs => rw [hl] at hs; cases hs
      | some L => exact ⟨L, rfl⟩
    have hLmem : L ∈ (expandQuery db.store.rows
        (primaryIdsOf (finderQuery db.store.rows e p))).filter
          (fun c => decide (c.linkPrecedence = .primary)) := by
      rw [findOldestPrimary] at hLfind
      exact mem_sortByKey.1 (head?_mem hLfind)
    have hLX : L ∈ expandQuery db.store.rows
        (primaryIdsOf (finderQuery db.store.rows e p)) := (List.mem_filter.1 hLmem).1
    have hLp : L.linkPrecedence = .primary := by
      have := (List.mem_filter.1 hLmem).2
      simpa using this
    have hLpid : L.id ∈ primaryIdsOf (finderQuery db.store.rows e p) :=
      hXprim_pid L hLX hLp
    obtain ⟨hLrow, hLdel⟩ := hXlive L hLX
    rw [hLfind]
    dsimp only
    rw [createSecondaryContact_noFail ({db with tick := db.tick + 1 + 1}) e p L.id hf]
    dsimp only
    -- the merge handler on the entries with the pushed rows array
    have hana := handleMerge_analysis
      ({db with tick := db.tick + 1 + 1 + 1, store := {db.store with
        rows := db.store.rows ++ [⟨db.store.nextId, norm p, norm e, some L.id,
          .secondary, db.store.now, db.store.now, none⟩]
        nextId := db.store.nextId + 1}})
      (((expandQuery db.store.rows
        (primaryIdsOf (finderQuery db.store.rows e p))).map Entry.contact) ++
        [Entry.rowsArray [⟨db.store.nextId, norm p, norm e, some L.id,
          .secondary, db.store.now, db.store.now, none⟩]])
      hf (primaryIdsOf (finderQuery db.store.rows e p)) hpne hnodup ?_ ?_ ?_
    rotate_left
    · -- keys
      intro en hen
      rcases List.mem_append.1 hen with h | h
      · obtain ⟨c, hc, rfl⟩ := List.mem_map.1 h
        obtain ⟨n, hn, hkey, -⟩ := mem_expandQuery_keyOf hwf hpids_live hc
        exact Or.inr ⟨n, hn, hkey⟩
      · simp only [List.mem_singleton] at h
        subst h
        exact Or.inl rfl
    · -- a primary entry for every pid
      intro n hn
      obtain ⟨pr, hprrow, hprid, hprp, hprd⟩ := hpids_live n hn
      exact ⟨pr, contact_mem_entries_append.2 (hprX hn hprrow hprid hprd),
        hprp, hprid⟩
    · -- uniqueness of primary entries by id
      intro c c' hc hc' hcp hc'p hid
      have hcr := (hXlive c (contact_mem_entries_append.1 hc)).1
      have hc'r := (hXlive c' (contact_mem_entries_append.1 hc')).1
      exact row_id_unique hwf hcr hc'r hid
    obtain ⟨A, demoted, t, out, heq, hAent, hAprim, hApid, hAmin, hdem, hout⟩ := hana
    have hAX := contact_mem_entries_append.1 hAent
    obtain ⟨hArow, hAdel⟩ := hXlive A hAX
    -- the merge really happened: the junk key and a real key are distinct groups
    have hlen : 1 < (groupByPrimary
        (((expandQuery db.store.rows
          (primaryIdsOf (finderQuery db.store.rows e p))).map Entry.contact) ++
          [Entry.rowsArray [⟨db.store.nextId, norm p, norm e, some L.id,
            .secondary, db.store.now, db.store.now, none⟩]])).length := by
      have hkeys_eq : groupKeys (groupByPrimary
          (((expandQuery db.store.rows
            (primaryIdsOf (finderQuery db.store.rows e p))).map Entry.contact) ++
            [Entry.rowsArray [⟨db.store.nextId, norm p, norm e, some L.id,
              .secondary, db.store.now, db.store.now, none⟩]])) =
          uniqFirst ((((expandQuery db.store.rows
            (primaryIdsOf (finderQuery db.store.rows e p))).map Entry.contact) ++
            [Entry.rowsArray [⟨db.store.nextId, norm p, norm e, some L.id,
              .secondary, db.store.now, db.store.now, none⟩]]).map keyOf) := by
        rw [groupByPrimary_eq, groupKeys_mkGroups]
      have h1 : (none : Option (Option Nat)) ∈ uniqFirst
          ((((expandQuery db.store.rows
            (primaryIdsOf (finderQuery db.store.rows e p))).map Entry.contact) ++
            [Entry.rowsArray [⟨db.store.nextId, norm p, norm e, some L.id,
              .secondary, db.store.now, db.store.now, none⟩]]).map keyOf) := by
        rw [mem_uniqFirst]
        exact List.mem_map.2 ⟨.rowsArray _,
          List.mem_append.2 (Or.inr (List.mem_singleton.2 rfl)), rfl⟩
      have h2 : (some (some A.id) : Option (Option Nat)) ∈ uniqFirst
          ((((expandQuery db.store.rows
            (primaryIdsOf (finderQuery db.store.rows e p))).map Entry.contact) ++
            [Entry.rowsArray [⟨db.store.nextId, norm p, norm e, some L.id,
              .secondary, db.store.now, db.store.now, none⟩]]).map keyOf) := by
        rw [mem_uniqFirst]
        exact List.mem_map.2 ⟨.contact A, hAent, by rw [keyOf, if_pos hAprim]⟩
      have := one_lt_length_of_two_mem nodup_uniqFirst h1 h2 (by simp)
      rw [← hkeys_eq, groupKeys, List.length_map] at this
      exact this
    -- response is ok
    rcases hout with hout | ⟨hnl, -⟩
    · obtain ⟨r, hr⟩ : ∃ r, buildResponse out = .ok r := by
        have hAout : Entry.contact A ∈ out := by
          rw [hout]
          apply contact_mem_entries_map.2
          rw [mem_sortByKey, List.mem_filter]
          constructor
          · refine List.mem_map.2 ⟨A, List.mem_append.2 (Or.inl hArow), ?_⟩
            rw [mergedRow]
            rw [if_neg (fun hmem => ((hdem A.id).1 hmem).2 rfl)]
            have hAl : A.linkedId = none := hwf.2.2.1 A hArow hAprim
            rw [if_neg (by rw [hAl]; simp)]
          · rw [byIdPred_iff]
            exact ⟨Or.inl rfl, hAdel⟩
        exact buildResponse_ok_of_primary hAout hAprim
      refine ⟨A, demoted, [⟨db.store.nextId, norm p, norm e, some L.id,
        .secondary, db.store.now, db.store.now, none⟩], t, r, ?_, hArow, hAprim,
        hAdel, hApid, hdem, ?_, hpids_live, ?_, ?_⟩
      · rw [heq]
        dsimp only
        rw [hr]
        rfl
      · intro c hcrow hcp hcpid
        obtain ⟨pr, hprrow, hprid, hprp, hprd⟩ := hpids_live c.id hcpid
        have hcpr : c = pr := row_id_unique hwf hcrow hprrow hprid.symm
        subst hcpr
        exact hAmin c (contact_mem_entries_append.2 (hprX hcpid hcrow hprid hprd))
          hcp
      · rw [if_pos hNN]
        exact ⟨L, hLrow, hLp, hLdel, hLpid, rfl⟩
      · rw [← hr, hout]
    · exact absurd hlen hnl
  · -- no new secondary: the entries are exactly the expansion
    rw [if_neg hNN]
    dsimp only
    have hana := handleMerge_analysis ({db with tick := db.tick + 1 + 1})
      ((expandQuery db.store.rows
        (primaryIdsOf (finderQuery db.store.rows e p))).map Entry.contact)
      hf (primaryIdsOf (finderQuery db.store.rows e p)) hpne hnodup ?_ ?_ ?_
    rotate_left
    · intro en hen
      obtain ⟨c, hc, rfl⟩ := List.mem_map.1 hen
      obtain ⟨n, hn, hkey, -⟩ := mem_expandQuery_keyOf hwf hpids_live hc
      exact Or.inr ⟨n, hn, hkey⟩
    · intro n hn
      obtain ⟨pr, hprrow, hprid, hprp, hprd⟩ := hpids_live n hn
      exact ⟨pr, contact_mem_entries_map.2 (hprX hn hprrow hprid hprd), hprp, hprid⟩
    · intro c c' hc hc' hcp hc'p hid
      have hcr := (hXlive c (contact_mem_entries_map.1 hc)).1
      have hc'r := (hXlive c' (contact_mem_entries_map.1 hc')).1
      exact row_id_unique hwf hcr hc'r hid
    obtain ⟨A, demoted, t, out, heq, hAent, hAprim, hApid, hAmin, hdem, hout⟩ := hana
    have hAX := contact_mem_entries_map.1 hAent
    obtain ⟨hArow, hAdel⟩ := hXlive A hAX
    have hminrows : ∀ c ∈ db.store.rows, c.linkPrecedence = .primary →
        c.id ∈ primaryIdsOf (finderQuery db.store.rows e p) →
        A.createdAt ≤ c.createdAt := by
      intro c hcrow hcp hcpid
      obtain ⟨pr, hprrow, hprid, hprp, hprd⟩ := hpids_live c.id hcpid
      have hcpr : c = pr := row_id_unique hwf hcrow hprrow hprid.symm
      subst hcpr
      exact hAmin c (contact_mem_entries_map.2 (hprX hcpid hcrow hprid hprd)) hcp
    have happ : db.store.rows ++ ([] : List Contact) = db.store.rows :=
      List.append_nil _
    rcases hout with hout | ⟨-, hdem0, hmapid, hout, hpids1⟩
    · obtain ⟨r, hr⟩ : ∃ r, buildResponse out = .ok r := by
        have hAout : Entry.contact A ∈ out := by
          rw [hout]
          apply contact_mem_entries_map.2
          rw [mem_sortByKey, List.mem_filter]
          constructor
          · refine List.mem_map.2 ⟨A, hArow, ?_⟩
            rw [mergedRow]
            rw [if_neg (fun hmem => ((hdem A.id).1 hmem).2 rfl)]
            have hAl : A.linkedId = none := hwf.2.2.1 A hArow hAprim
            rw [if_neg (by rw [hAl]; simp)]
          · rw [byIdPred_iff]
            exact ⟨Or.inl rfl, hAdel⟩
        exact buildResponse_ok_of_primary hAout hAprim
      refine ⟨A, demoted, [], t, r, ?_, hArow, hAprim, hAdel, hApid, hdem,
        hminrows, hpids_live, ?_, ?_⟩
      · rw [heq]
        dsimp only
        rw [hr, happ]
        rfl
      · rw [if_neg hNN]
      · rw [← hr, hout, happ]
    · -- single cluster, nothing changed: the output is the expansion itself
      obtain ⟨r, hr⟩ : ∃ r, buildResponse out = .ok r := by
        rw [hout]
        exact buildResponse_ok_of_primary hAent hAprim
      refine ⟨A, demoted, [], t, r, ?_, hArow, hAprim, hAdel, hApid, hdem,
        hminrows, hpids_live, ?_, ?_⟩
      · rw [heq]
        dsimp only
        rw [hr, happ]
        rfl
      · rw [if_neg hNN]
      · have hmapid' : db.store.rows.map (mergedRow demoted A.id db.store.now) =
            db.store.rows := hmapid
        rw [← hr, hout, happ, hmapid']
        congr 1
        congr 1
        rw [hpids1, expandQuery]
        congr 1
        apply List.filter_congr
        intro c _
        rw [expandPred_singleton]

theorem mergedRow_id (S : List Nat) (A t : Nat) (c : Contact) :
    (mergedRow S A t c).id = c.id := by
  unfold mergedRow
  split
  · rfl
  · split <;> rfl

theorem mergedRow_email (S : List Nat) (A t : Nat) (c : Contact) :
    (mergedRow S A t c).email = c.email := by
  unfold mergedRow
  split
  · rfl
  · split <;> rfl

theorem mergedRow_phoneNumber (S : List Nat) (A t : Nat) (c : Contact) :
    (mergedRow S A t c).phoneNumber = c.phoneNumber := by
  unfold mergedRow
  split
  · rfl
  · split <;> rfl

theorem mergedRow_createdAt (S : List Nat) (A t : Nat) (c : Contact) :
    (mergedRow S A t c).createdAt = c.createdAt := by
  unfold mergedRow
  split
  · rfl
  · split <;> rfl

theorem mergedRow_deletedAt (S : List Nat) (A t : Nat) (c : Contact) :
    (mergedRow S A t c).deletedAt = c.deletedAt := by
  unfold mergedRow
  split
  · rfl
  · split <;> rfl

theorem mergedRow_demote {S : List Nat} {A t : Nat} {c : Contact} (h : c.id ∈ S) :
    mergedRow S A t c =
      {c with linkedId := some A, linkPrecedence := .secondary, updatedAt := t} := by
  unfold mergedRow
  rw [if_pos h]

theorem mergedRow_repoint {S : List Nat} {A t : Nat} {c : Contact} {m : Nat}
    (hid : c.id ∉ S) (hl : c.linkedId = some m) (hm : m ∈ S) :
    mergedRow S A t c = {c with linkedId := some A, updatedAt := t} := by
  unfold mergedRow
  rw [if_neg hid, if_pos (by rw [hl]; simpa using hm)]

theorem mergedRow_untouched {S : List Nat} {A t : Nat} {c : Contact}
    (hid : c.id ∉ S) (hl : ∀ m, c.linkedId = some m → m ∉ S) :
    mergedRow S A t c = c := by
  unfold mergedRow
  rw [if_neg hid]
  cases hc : c.linkedId with
  | none => rw [if_neg (by simp)]
  | some m => rw [if_neg (by simpa using hl m hc)]

theorem mergedRow_linkPrecedence_demote {S : List Nat} {A t : Nat} {c : Contact}
    (h : c.id ∈ S) : (mergedRow S A t c).linkPrecedence = .secondary := by
  rw [mergedRow_demote h]

theorem mergedRow_linkPrecedence_stable {S : List Nat} {A t : Nat} {c : Contact}
    (h : c.id ∉ S) : (mergedRow S A t c).linkPrecedence = c.linkPrecedence := by
  unfold mergedRow
  rw [if_neg h]
  split <;> rfl

/-- A merged row either points at the survivor, or is entirely untouched with
a link that avoids every demoted id. -/
theorem mergedRow_linkedId_cases (S : List Nat) (A t : Nat) (c : Contact) :
    (mergedRow S A t c).linkedId = some A ∨
      (mergedRow S A t c = c ∧ ∀ m, c.linkedId = some m → m ∉ S) := by
  by_cases h1 : c.id ∈ S
  · rw [mergedRow_demote h1]
    exact Or.inl rfl
  · cases hc : c.linkedId with
    | none =>
      right
      refine ⟨mergedRow_untouched h1 ?_, ?_⟩
      · intro m hm
        rw [hc] at hm
        cases hm
      · intro m hm
        cases hm
    | some m =>
      by_cases h2 : m ∈ S
      · rw [mergedRow_repoint h1 hc h2]
        exact Or.inl rfl
      · right
        refine ⟨mergedRow_untouched h1 ?_, ?_⟩
        · intro k hk
          rw [hc] at hk
          cases hk
          exact h2
        · intro k hk
          cases hk
          exact h2

theorem uniqFirstAux_all_seen {α : Type} [DecidableEq α] {seen l : List α}
    (h : ∀ y ∈ l, y ∈ seen) : uniqFirstAux seen l = [] := by
  induction l with
  | nil => rfl
  | cons x xs ih =>
    rw [uniqFirstAux, if_pos (h x (List.mem_cons_self x xs))]
    exact ih (fun y hy => h y (List.mem_cons_of_mem x hy))

theorem uniqFirst_const {α : Type} [DecidableEq α] {l : List α} {x : α}
    (hne : l ≠ []) (hall : ∀ y ∈ l, y = x) : uniqFirst l = [x] := by
  cases l with
  | nil => exact absurd rfl hne
  | cons a as =>
    have ha : a = x := hall a (List.mem_cons_self a as)
    subst ha
    rw [uniqFirst, uniqFirstAux, if_neg (by simp)]
    rw [uniqFirstAux_all_seen]
    intro y hy
    rw [hall y (List.mem_cons_of_mem a hy)]
    exact List.mem_cons_self a []

theorem truthy_iff {o : Option String} : truthy o = true ↔ ∃ v, norm o = some v := by
  cases o with
  | none => simp [truthy, norm]
  | some s =>
    by_cases h : s = "" <;> simp [truthy, norm, h]

theorem buildResponse_eq (l : List Entry) (pr : Contact)
    (h : (l.filterMap entryPrimary?).head? = some pr) :
    buildResponse l = .ok ⟨⟨pr.id,
      uniqFirst ((pr.email :: (l.filterMap entrySecondary?).map
        (fun c => c.email)).filterMap norm),
      uniqFirst ((pr.phoneNumber :: (l.filterMap entrySecondary?).map
        (fun c => c.phoneNumber)).filterMap norm),
      (l.filterMap entrySecondary?).map (fun c => c.id)⟩⟩ := by
  rw [buildResponse, h]

/-- Field-wise consequences of a successful `buildResponse` whose unique
primary is known. -/
theorem buildResponse_facts {l : List Entry} {pr : Contact} {r : IdentifyResponse}
    (hhead : (l.filterMap entryPrimary?).head? = some pr)
    (hr : Except.ok r = buildResponse l) :
    r.contact.primaryContatctId = pr.id ∧
    r.contact.emails = uniqFirst ((pr.email :: (l.filterMap entrySecondary?).map
      (fun c => c.email)).filterMap norm) ∧
    r.contact.phoneNumbers = uniqFirst ((pr.phoneNumber ::
      (l.filterMap entrySecondary?).map (fun c => c.phoneNumber)).filterMap norm) ∧
    r.contact.secondaryContactIds = (l.filterMap entrySecondary?).map
      (fun c => c.id) := by
  rw [buildResponse_eq l pr hhead, Except.ok.injEq] at hr
  subst hr
  exact ⟨rfl, rfl, rfl, rfl⟩

theorem WF_clusterA : WF clusterA_DB.store := by
  refine ⟨?_, by decide, ?_, ?_, by decide⟩
  · intro c hc
    rcases (by simpa [clusterA_DB] using hc : c = cA1 ∨ c = cA2) with rfl | rfl <;>
      decide
  · intro c hc hp
    rcases (by simpa [clusterA_DB] using hc : c = cA1 ∨ c = cA2) with rfl | rfl
    · rfl
    · exact absurd hp (by decide)
  · intro c hc hs
    rcases (by simpa [clusterA_DB] using hc : c = cA1 ∨ c = cA2) with rfl | rfl
    · exact absurd hs (by decide)
    · exact ⟨1, rfl, cA1, by simp [clusterA_DB], rfl, rfl, rfl⟩

theorem WF_twoCluster : WF twoClusterDB.store := by
  refine ⟨?_, by decide, ?_, ?_, by decide⟩
  · intro c hc
    rcases (by simpa [twoClusterDB] using hc :
        c = cA1 ∨ c = cB1 ∨ c = cA2 ∨ c = cB2) with rfl | rfl | rfl | rfl <;> decide
  · intro c hc hp
    rcases (by simpa [twoClusterDB] using hc :
        c = cA1 ∨ c = cB1 ∨ c = cA2 ∨ c = cB2) with rfl | rfl | rfl | rfl
    · rfl
    · rfl
    · exact absurd hp (by decide)
    · exact absurd hp (by decide)
  · intro c hc hs
    rcases (by simpa [twoClusterDB] using hc :
        c = cA1 ∨ c = cB1 ∨ c = cA2 ∨ c = cB2) with rfl | rfl | rfl | rfl
    · exact absurd hs (by decide)
    · exact absurd hs (by decide)
    · exact ⟨1, rfl, cA1, by simp [twoClusterDB], rfl, rfl, rfl⟩
    · exact ⟨2, rfl, cB1, by simp [twoClusterDB], rfl, rfl, rfl⟩

/-! ### C3 -/

/-- C3: the exact-pair rule.  A new secondary is signalled exactly when no
cluster contact carries the exact `(email or null, phoneNumber or null)`
pair simultaneously — even if each field occurs separately.  And when some
member of the matched cluster does carry the exact pair, `identify` creates
no contact: the run succeeds and the stored rows' ids are unchanged. -/
theorem exact_pair_controls_creation :
    (∀ (cs : List Contact) (e p : Option String),
      needsNewSecondaryContact cs e p = true ↔
        ∀ c ∈ cs, ¬(c.email = norm e ∧ c.phoneNumber = norm p)) ∧
    (∀ (db : DB) (e p : Option String), db.failAt = [] → WF db.store →
      (truthy e = true ∨ truthy p = true) →
      (∃ m ∈ db.store.rows, m.deletedAt = none ∧ m.email = norm e ∧
        m.phoneNumber = norm p) →
      (identify db e p).1.store.rows.map (fun c => c.id) =
        db.store.rows.map (fun c => c.id) ∧
      ∃ r, (identify db e p).2 = Except.ok r) := by
  constructor
  · intro cs e p
    rw [needsNewSecondaryContact]
    simp
  · intro db e p hf hwf hv hm
    obtain ⟨m, hmrow, hmdel, hmem, hmph⟩ := hm
    have hmM : m ∈ finderQuery db.store.rows e p := by
      rw [mem_finderQuery]
      refine ⟨hmrow, matchPred_iff.2 ⟨?_, hmdel⟩⟩
      rcases hv with h | h
      · obtain ⟨v, hve⟩ := truthy_iff.1 h
        exact Or.inl ⟨v, hve, by rw [hmem, hve]⟩
      · obtain ⟨v, hvp⟩ := truthy_iff.1 h
        exact Or.inr ⟨v, hvp, by rw [hmph, hvp]⟩
    have hM : finderQuery db.store.rows e p ≠ [] := List.ne_nil_of_mem hmM
    have hval : (!truthy e && !truthy p) = false := by
      rcases hv with h | h <;> simp [h]
    have hmX : m ∈ expandQuery db.store.rows
        (primaryIdsOf (finderQuery db.store.rows e p)) := by
      obtain ⟨n, pr, hk, hpr, hpid, hprp, hprd, hdisj⟩ :=
        primaryKeyOf_of_WF hwf hmrow hmdel
      have hnp : n ∈ primaryIdsOf (finderQuery db.store.rows e p) :=
        mem_primaryIdsOf.2 ⟨m, hmM, hk⟩
      refine mem_expandQuery.2 ⟨hmrow, expandPred_iff.2 ⟨?_, hmdel⟩⟩
      rcases hdisj with h | h
      · exact Or.inl (h ▸ hnp)
      · exact Or.inr ⟨n, h, hnp⟩
    have hNN : needsNewSecondaryContact (expandQuery db.store.rows
        (primaryIdsOf (finderQuery db.store.rows e p))) e p = false := by
      rw [needsNewSecondaryContact, Bool.not_eq_false']
      exact List.any_eq_true.2 ⟨m, hmX, by simp [hmem, hmph]⟩
    obtain ⟨A, demoted, ins, t, r, heq, hArow, hAp, hAdel, hApid, hdem, hmin,
      hlive, hins, hr⟩ := identify_matched_noFail db e p hf hwf hval hM
    rw [if_neg (by simp [hNN])] at hins
    subst hins
    rw [heq]
    refine ⟨?_, ⟨r, rfl⟩⟩
    dsimp only
    rw [List.append_nil, List.map_map]
    exact List.map_congr_left (fun c _ => mergedRow_id demoted A.id db.store.now c)

/-- Witness for C3 at a concrete store and request whose exact pair is
already present. -/
theorem exact_pair_controls_creation_witness :
    (clusterA_DB.failAt = []) ∧ WF clusterA_DB.store ∧
    (truthy (some "a@x") = true ∨ truthy (none : Option String) = true) ∧
    (∃ m ∈ clusterA_DB.store.rows, m.deletedAt = none ∧
      m.email = norm (some "a@x") ∧ m.phoneNumber = norm none) ∧
    ((identify clusterA_DB (some "a@x") none).1.store.rows.map (fun c => c.id) =
      clusterA_DB.store.rows.map (fun c => c.id) ∧
    ∃ r, (identify clusterA_DB (some "a@x") none).2 = Except.ok r) := by
  refine ⟨rfl, WF_clusterA, Or.inl (by decide),
    ⟨cA1, by simp [clusterA_DB], by decide, by decide, by decide⟩, ?_⟩
  exact exact_pair_controls_creation.2 clusterA_DB (some "a@x") none rfl WF_clusterA
    (Or.inl (by decide)) ⟨cA1, by simp [clusterA_DB], by decide, by decide, by decide⟩

/-! ### C1 -/

/-- C1: merging two previously unrelated clusters.  With live primaries `a1`
(older, carrying email `E`) and `b1` (younger, carrying phone `P`) whose
clusters cover every live row matching the request, `identify (some E)
(some P)` succeeds; the response's primary id is `a1.id`; `b1` is demoted to
a secondary linked to `a1`; every former dependent of `b1` is re-pointed to
`a1`; and no stored contact is left pointing at `b1`. -/
theorem merge_two_clusters (db : DB) (E P : String) (a1 b1 : Contact)
    (hf : db.failAt = []) (hwf : WF db.store)
    (hE : E ≠ "") (hP : P ≠ "")
    (ha1row : a1 ∈ db.store.rows) (ha1p : a1.linkPrecedence = .primary)
    (ha1del : a1.deletedAt = none) (ha1em : a1.email = some E)
    (hb1row : b1 ∈ db.store.rows) (hb1p : b1.linkPrecedence = .primary)
    (hb1del : b1.deletedAt = none) (hb1ph : b1.phoneNumber = some P)
    (hlt : a1.createdAt < b1.createdAt)
    (hmatch : ∀ c ∈ db.store.rows, c.deletedAt = none →
      (c.email = some E ∨ c.phoneNumber = some P) →
      c.id = a1.id ∨ c.linkedId = some a1.id ∨ c.id = b1.id ∨
        c.linkedId = some b1.id) :
    ∃ db' r,
      identify db (some E) (some P) = (db', Except.ok r) ∧
      r.contact.primaryContatctId = a1.id ∧
      (∃ b1' ∈ db'.store.rows, b1'.id = b1.id ∧
        b1'.linkPrecedence = .secondary ∧ b1'.linkedId = some a1.id) ∧
      (∀ c ∈ db.store.rows, c.linkedId = some b1.id →
        ∃ c' ∈ db'.store.rows, c'.id = c.id ∧ c'.linkedId = some a1.id) ∧
      (∀ c' ∈ db'.store.rows, c'.linkedId ≠ some b1.id) := by
  have hnormE : norm (some E) = some E := by simp [norm, hE]
  have hnormP : norm (some P) = some P := by simp [norm, hP]
  have hval : (!truthy (some E) && !truthy (some P)) = false := by
    simp [truthy, hE]
  have hab : a1 ≠ b1 := by
    intro h
    rw [h] at hlt
    exact Nat.lt_irrefl _ hlt
  have habid : a1.id ≠ b1.id := by
    intro h
    exact hab (row_id_unique hwf ha1row hb1row h)
  have ha1M : a1 ∈ finderQuery db.store.rows (some E) (some P) :=
    mem_finderQuery.2 ⟨ha1row, matchPred_iff.2 ⟨Or.inl ⟨E, hnormE, ha1em⟩, ha1del⟩⟩
  have hb1M : b1 ∈ finderQuery db.store.rows (some E) (some P) :=
    mem_finderQuery.2 ⟨hb1row, matchPred_iff.2 ⟨Or.inr ⟨P, hnormP, hb1ph⟩, hb1del⟩⟩
  have hM : finderQuery db.store.rows (some E) (some P) ≠ [] :=
    List.ne_nil_of_mem ha1M
  have hkeys : ∀ n ∈ primaryIdsOf (finderQuery db.store.rows (some E) (some P)),
      n = a1.id ∨ n = b1.id := by
    intro n hn
    obtain ⟨c, hcM, hck⟩ := mem_primaryIdsOf.1 hn
    obtain ⟨hcrow, hcmp⟩ := mem_finderQuery.1 hcM
    obtain ⟨hcor, hcdel⟩ := matchPred_iff.1 hcmp
    have hcmatch : c.email = some E ∨ c.phoneNumber = some P := by
      rcases hcor with ⟨v, hv, hev⟩ | ⟨v, hv, hpv⟩
      · rw [hnormE] at hv
        cases hv
        exact Or.inl hev
      · rw [hnormP] at hv
        cases hv
        exact Or.inr hpv
    obtain ⟨n', pr, hk, hpr, hprid, hprp, hprd, hdisj⟩ :=
      primaryKeyOf_of_WF hwf hcrow hcdel
    rw [hck] at hk
    have hnn : n = n' := by simpa using hk
    subst hnn
    rcases hmatch c hcrow hcdel hcmatch with hca | hcla | hcb | hclb
    · have hc1 : c = a1 := row_id_unique hwf hcrow ha1row hca
      rcases hdisj with h | h
      · left
        rw [← h]
        exact hca
      · exfalso
        have hl0 : c.linkedId = none := hwf.2.2.1 c hcrow (by rw [hc1]; exact ha1p)
        rw [hl0] at h
        cases h
    · rcases hdisj with h | h
      · exfalso
        have hcpr : c = pr := row_id_unique hwf hcrow hpr (by rw [h, hprid])
        have hl0 : c.linkedId = none :=
          hwf.2.2.1 c hcrow (by rw [hcpr]; exact hprp)
        rw [hl0] at hcla
        cases hcla
      · left
        rw [h] at hcla
        simpa using hcla
    · have hc1 : c = b1 := row_id_unique hwf hcrow hb1row hcb
      rcases hdisj with h | h
      · right
        rw [← h]
        exact hcb
      · exfalso
        have hl0 : c.linkedId = none := hwf.2.2.1 c hcrow (by rw [hc1]; exact hb1p)
        rw [hl0] at h
        cases h
    · rcases hdisj with h | h
      · exfalso
        have hcpr : c = pr := row_id_unique hwf hcrow hpr (by rw [h, hprid])
        have hl0 : c.linkedId = none :=
          hwf.2.2.1 c hcrow (by rw [hcpr]; exact hprp)
        rw [hl0] at hclb
        cases hclb
      · right
        rw [h] at hclb
        simpa using hclb
  have ha1pid : a1.id ∈ primaryIdsOf (finderQuery db.store.rows (some E) (some P)) :=
    mem_primaryIdsOf.2 ⟨a1, ha1M, by simp [primaryKeyOf, ha1p]⟩
  have hb1pid : b1.id ∈ primaryIdsOf (finderQuery db.store.rows (some E) (some P)) :=
    mem_primaryIdsOf.2 ⟨b1, hb1M, by simp [primaryKeyOf, hb1p]⟩
  obtain ⟨A, demoted, ins, t, r, heq, hArow, hAp, hAdel, hApid, hdem, hmin,
    hlive, hins, hr⟩ := identify_matched_noFail db (some E) (some P) hf hwf hval hM
  have hA : A = a1 := by
    rcases hkeys A.id hApid with h | h
    · exact row_id_unique hwf hArow ha1row h
    · exfalso
      have hAb : A = b1 := row_id_unique hwf hArow hb1row h
      have hmle := hmin a1 ha1row ha1p ha1pid
      rw [hAb] at hmle
      exact absurd hlt (Nat.not_lt.2 hmle)
  have hb1dem : b1.id ∈ demoted := by
    refine (hdem b1.id).2 ⟨hb1pid, ?_⟩
    rw [hA]
    exact habid.symm
  have hdemb : ∀ n ∈ demoted, n = b1.id := by
    intro n hn
    obtain ⟨hnp, hna⟩ := (hdem n).1 hn
    rcases hkeys n hnp with h | h
    · exfalso
      refine hna ?_
      rw [hA]
      exact h
    · exact h
  rw [hA] at heq hr
  have hins_sec : ∀ c ∈ ins, c.linkPrecedence = LinkPrecedence.secondary := by
    by_cases hNN : needsNewSecondaryContact (expandQuery db.store.rows
        (primaryIdsOf (finderQuery db.store.rows (some E) (some P))))
        (some E) (some P) = true
    · rw [if_pos hNN] at hins
      obtain ⟨L, -, -, -, -, hinseq⟩ := hins
      rw [hinseq]
      intro c hc
      rw [List.mem_singleton.1 hc]
    · rw [if_neg hNN] at hins
      rw [hins]
      intro c hc
      cases hc
  set RF : List Contact := sortByKey (fun c => c.createdAt)
    (((db.store.rows ++ ins).map (mergedRow demoted a1.id db.store.now)).filter
      (byIdPred a1.id)) with hRF
  have ha1merge : mergedRow demoted a1.id db.store.now a1 = a1 := by
    apply mergedRow_untouched
    · intro h
      exact habid (hdemb a1.id h)
    · intro m hm
      have hl0 : a1.linkedId = none := hwf.2.2.1 a1 ha1row ha1p
      rw [hl0] at hm
      cases hm
  have ha1RF : a1 ∈ RF := by
    rw [hRF, mem_sortByKey, List.mem_filter]
    refine ⟨?_, byIdPred_iff.2 ⟨Or.inl rfl, ha1del⟩⟩
    exact List.mem_map.2 ⟨a1, List.mem_append.2 (Or.inl ha1row), ha1merge⟩
  have hfilterPrim : ∀ y ∈ RF.filter
      (fun c => decide (c.linkPrecedence = LinkPrecedence.primary)), y = a1 := by
    intro y hy
    obtain ⟨hy1, hy2⟩ := List.mem_filter.1 hy
    have hyp : y.linkPrecedence = .primary := by simpa using hy2
    rw [hRF, mem_sortByKey, List.mem_filter] at hy1
    obtain ⟨hy3, hy4⟩ := hy1
    obtain ⟨hid, hdel⟩ := byIdPred_iff.1 hy4
    obtain ⟨c, hcmem, hcy⟩ := List.mem_map.1 hy3
    rcases List.mem_append.1 hcmem with hcrow | hcins
    · by_cases hcd : c.id ∈ demoted
      · exfalso
        have hsec : y.linkPrecedence = .secondary := by
          rw [← hcy]
          exact mergedRow_linkPrecedence_demote hcd
        exact absurd (hyp.symm.trans hsec) (by decide)
      · have hcp : c.linkPrecedence = .primary := by
          rw [← hcy] at hyp
          rw [mergedRow_linkPrecedence_stable hcd] at hyp
          exact hyp
        have hl0 : c.linkedId = none := hwf.2.2.1 c hcrow hcp
        have hcu : mergedRow demoted a1.id db.store.now c = c := by
          apply mergedRow_untouched hcd
          intro m hm
          rw [hl0] at hm
          cases hm
        rw [hcu] at hcy
        subst hcy
        rcases hid with hid | hid
        · exact row_id_unique hwf hcrow ha1row hid
        · exfalso
          rw [hl0] at hid
          cases hid
    · exfalso
      have hsec : y.linkPrecedence = .secondary := by
        rw [← hcy]
        by_cases hcd : c.id ∈ demoted
        · exact mergedRow_linkPrecedence_demote hcd
        · rw [mergedRow_linkPrecedence_stable hcd]
          exact hins_sec c hcins
      exact absurd (hyp.symm.trans hsec) (by decide)
  have hhead : ((RF.map Entry.contact).filterMap entryPrimary?).head? =
      some a1 := by
    rw [filterMap_entryPrimary_map]
    apply head?_eq_of_all_eq
    · exact List.ne_nil_of_mem (List.mem_filter.2 ⟨ha1RF, by simp [ha1p]⟩)
    · exact hfilterPrim
  obtain ⟨hrpid, -, -, -⟩ := buildResponse_facts hhead hr
  refine ⟨_, r, heq, hrpid, ?_, ?_, ?_⟩
  · refine ⟨mergedRow demoted a1.id db.store.now b1,
      List.mem_map.2 ⟨b1, List.mem_append.2 (Or.inl hb1row), rfl⟩, ?_, ?_, ?_⟩
    · rw [mergedRow_demote hb1dem]
    · rw [mergedRow_demote hb1dem]
    · rw [mergedRow_demote hb1dem]
  · intro c hcrow hclb
    have hcid : c.id ∉ demoted := by
      intro h
      have hcb : c = b1 := row_id_unique hwf hcrow hb1row (hdemb c.id h)
      have hl0 : b1.linkedId = none := hwf.2.2.1 b1 hb1row hb1p
      rw [hcb, hl0] at hclb
      cases hclb
    refine ⟨mergedRow demoted a1.id db.store.now c,
      List.mem_map.2 ⟨c, List.mem_append.2 (Or.inl hcrow), rfl⟩, ?_, ?_⟩
    · rw [mergedRow_repoint hcid hclb hb1dem]
    · rw [mergedRow_repoint hcid hclb hb1dem]
  · intro c' hc'
    obtain ⟨c, hcmem, hcy⟩ := List.mem_map.1 hc'
    rcases mergedRow_linkedId_cases demoted a1.id db.store.now c with h |
        ⟨heqc, hnolink⟩
    · rw [← hcy, h]
      intro hbad
      exact habid (by simpa using hbad)
    · rw [← hcy, heqc]
      intro hbad
      exact hnolink b1.id hbad hb1dem

theorem merge_two_clusters_witness :
    twoClusterDB.failAt = [] ∧ WF twoClusterDB.store ∧
    cA1.createdAt < cB1.createdAt ∧
    ∃ db' r,
      identify twoClusterDB (some "a@x") (some "222") = (db', Except.ok r) ∧
      r.contact.primaryContatctId = cA1.id ∧
      (∃ b1' ∈ db'.store.rows, b1'.id = cB1.id ∧
        b1'.linkPrecedence = .secondary ∧ b1'.linkedId = some cA1.id) ∧
      (∀ c ∈ twoClusterDB.store.rows, c.linkedId = some cB1.id →
        ∃ c' ∈ db'.store.rows, c'.id = c.id ∧ c'.linkedId = some cA1.id) ∧
      (∀ c' ∈ db'.store.rows, c'.linkedId ≠ some cB1.id) := by
  refine ⟨rfl, WF_twoCluster, by decide, ?_⟩
  exact merge_two_clusters twoClusterDB "a@x" "222" cA1 cB1 rfl WF_twoCluster
    (by decide) (by decide) (by decide) rfl rfl rfl (by decide) rfl rfl rfl
    (by decide) (by decide)

/-! ### C2 -/

/-- C2: with an existing cluster whose live primary `a1` carries email `E`
(and `E` appearing only in that cluster), a request with the same `E` and a
phone `P` present nowhere in the store creates exactly one new contact — a
secondary linked to `a1` — and the response's emails contain `E` exactly
once, its phoneNumbers contain `P`, and its secondaryContactIds contain the
new contact's id. -/
theorem same_email_new_phone_creates_secondary (db : DB) (E P : String)
    (a1 : Contact) (hf : db.failAt = []) (hwf : WF db.store)
    (hE : E ≠ "") (hP : P ≠ "")
    (ha1row : a1 ∈ db.store.rows) (ha1p : a1.linkPrecedence = .primary)
    (ha1del : a1.deletedAt = none) (ha1em : a1.email = some E)
    (hPnew : ∀ c ∈ db.store.rows, c.phoneNumber ≠ some P)
    (hEcluster : ∀ c ∈ db.store.rows, c.deletedAt = none → c.email = some E →
      c.id = a1.id ∨ c.linkedId = some a1.id) :
    ∃ t r,
      identify db (some E) (some P) =
        ({db with tick := t, store := {db.store with
          rows := db.store.rows ++ [⟨db.store.nextId, some P, some E, some a1.id,
            .secondary, db.store.now, db.store.now, none⟩]
          nextId := db.store.nextId + 1}}, .ok r) ∧
      r.contact.emails.count E = 1 ∧
      P ∈ r.contact.phoneNumbers ∧
      db.store.nextId ∈ r.contact.secondaryContactIds := by
  have hnormE : norm (some E) = some E := by simp [norm, hE]
  have hnormP : norm (some P) = some P := by simp [norm, hP]
  have hval : (!truthy (some E) && !truthy (some P)) = false := by
    simp [truthy, hE]
  have hMchar : ∀ c, c ∈ finderQuery db.store.rows (some E) (some P) ↔
      c ∈ db.store.rows ∧ c.deletedAt = none ∧ c.email = some E := by
    intro c
    rw [mem_finderQuery, matchPred_iff]
    constructor
    · rintro ⟨hrow, hor, hdel⟩
      rcases hor with ⟨v, hv, hev⟩ | ⟨v, hv, hpv⟩
      · rw [hnormE] at hv
        cases hv
        exact ⟨hrow, hdel, hev⟩
      · rw [hnormP] at hv
        cases hv
        exact absurd hpv (hPnew c hrow)
    · rintro ⟨hrow, hdel, hev⟩
      exact ⟨hrow, Or.inl ⟨E, hnormE, hev⟩, hdel⟩
  have ha1M : a1 ∈ finderQuery db.store.rows (some E) (some P) :=
    (hMchar a1).2 ⟨ha1row, ha1del, ha1em⟩
  have hM : finderQuery db.store.rows (some E) (some P) ≠ [] :=
    List.ne_nil_of_mem ha1M
  have hkeys' : ∀ n ∈ (finderQuery db.store.rows (some E) (some P)).filterMap
      primaryKeyOf, n = a1.id := by
    intro n hn
    obtain ⟨c, hcM, hck⟩ := List.mem_filterMap.1 hn
    obtain ⟨hcrow, hcdel, hcem⟩ := (hMchar c).1 hcM
    obtain ⟨n', pr, hk, hpr, hprid, hprp, hprd, hdisj⟩ :=
      primaryKeyOf_of_WF hwf hcrow hcdel
    rw [hck] at hk
    have hnn' : n = n' := by simpa using hk
    subst hnn'
    rcases hEcluster c hcrow hcdel hcem with hca | hcl
    · have hc1 : c = a1 := row_id_unique hwf hcrow ha1row hca
      rcases hdisj with h | h
      · rw [← h]
        exact hca
      · have hl0 : c.linkedId = none := hwf.2.2.1 c hcrow (by rw [hc1]; exact ha1p)
        rw [hl0] at h
        cases h
    · rcases hdisj with h | h
      · have hcpr : c = pr := row_id_unique hwf hcrow hpr (by rw [h, hprid])
        have hl0 : c.linkedId = none :=
          hwf.2.2.1 c hcrow (by rw [hcpr]; exact hprp)
        rw [hl0] at hcl
        cases hcl
      · rw [h] at hcl
        simpa using hcl
  have hpids : primaryIdsOf (finderQuery db.store.rows (some E) (some P)) =
      [a1.id] := by
    rw [primaryIdsOf]
    apply uniqFirst_const
    · have ha1k : a1.id ∈ (finderQuery db.store.rows (some E) (some P)).filterMap
          primaryKeyOf :=
        List.mem_filterMap.2 ⟨a1, ha1M, by simp [primaryKeyOf, ha1p]⟩
      exact List.ne_nil_of_mem ha1k
    · exact hkeys'
  have hNN : needsNewSecondaryContact (expandQuery db.store.rows
      (primaryIdsOf (finderQuery db.store.rows (some E) (some P))))
      (some E) (some P) = true := by
    rw [needsNewSecondaryContact, Bool.not_eq_true']
    rw [List.any_eq_false]
    intro c hc
    simp only [Bool.and_eq_true, decide_eq_true_eq, not_and]
    intro _
    rw [hnormP]
    exact hPnew c (mem_expandQuery.1 hc).1
  obtain ⟨A, demoted, ins, t, r, heq, hArow, hAp, hAdel, hApid, hdem, hmin,
    hlive, hins, hr⟩ := identify_matched_noFail db (some E) (some P) hf hwf hval hM
  rw [if_pos hNN] at hins
  obtain ⟨L, hLrow, hLp, hLdel, hLpid, hins⟩ := hins
  have hA : A = a1 := by
    rw [hpids] at hApid
    exact row_id_unique hwf hArow ha1row (by simpa using hApid)
  have hL : L = a1 := by
    rw [hpids] at hLpid
    exact row_id_unique hwf hLrow ha1row (by simpa using hLpid)
  have hdem0 : demoted = [] := by
    rw [List.eq_nil_iff_forall_not_mem]
    intro n hn
    obtain ⟨hnp, hna⟩ := (hdem n).1 hn
    rw [hpids] at hnp
    refine hna ?_
    rw [hA]
    simpa using hnp
  rw [hL, hnormE, hnormP] at hins
  subst hins
  subst hdem0
  rw [hA] at heq hr
  have hrows : (db.store.rows ++ [(⟨db.store.nextId, some P, some E, some a1.id,
      .secondary, db.store.now, db.store.now, none⟩ : Contact)]).map
        (mergedRow [] a1.id db.store.now) =
      db.store.rows ++ [⟨db.store.nextId, some P, some E, some a1.id,
        .secondary, db.store.now, db.store.now, none⟩] :=
    (List.map_congr_left (fun c _ => mergedRow_nil a1.id db.store.now c)).trans
      (List.map_id _)
  rw [hrows] at heq hr
  set newc : Contact := ⟨db.store.nextId, some P, some E, some a1.id,
    .secondary, db.store.now, db.store.now, none⟩ with hnewc
  set RF : List Contact := sortByKey (fun c => c.createdAt)
    ((db.store.rows ++ [newc]).filter (byIdPred a1.id)) with hRF
  have hnc_mem : newc ∈ RF := by
    rw [hRF, mem_sortByKey, List.mem_filter]
    refine ⟨List.mem_append.2 (Or.inr (List.mem_singleton.2 rfl)), ?_⟩
    exact byIdPred_iff.2 ⟨Or.inr (by rw [hnewc]), by rw [hnewc]⟩
  have ha1RF : a1 ∈ RF := by
    rw [hRF, mem_sortByKey, List.mem_filter]
    exact ⟨List.mem_append.2 (Or.inl ha1row), byIdPred_iff.2 ⟨Or.inl rfl, ha1del⟩⟩
  have hfilterPrim : ∀ y ∈ RF.filter
      (fun c => decide (c.linkPrecedence = LinkPrecedence.primary)), y = a1 := by
    intro y hy
    obtain ⟨hy1, hy2⟩ := List.mem_filter.1 hy
    have hyp : y.linkPrecedence = .primary := by simpa using hy2
    rw [hRF, mem_sortByKey, List.mem_filter] at hy1
    obtain ⟨hy3, hy4⟩ := hy1
    obtain ⟨hid, hdel⟩ := byIdPred_iff.1 hy4
    rcases List.mem_append.1 hy3 with hyrow | hynew
    · rcases hid with hid | hid
      · exact row_id_unique hwf hyrow ha1row hid
      · have hl0 : y.linkedId = none := hwf.2.2.1 y hyrow hyp
        rw [hl0] at hid
        cases hid
    · exfalso
      have hyn : y = newc := by simpa using hynew
      rw [hyn, hnewc] at hyp
      cases hyp
  have hhead : ((RF.map Entry.contact).filterMap entryPrimary?).head? =
      some a1 := by
    rw [filterMap_entryPrimary_map]
    apply head?_eq_of_all_eq
    · exact List.ne_nil_of_mem (List.mem_filter.2 ⟨ha1RF, by simp [ha1p]⟩)
    · exact hfilterPrim
  obtain ⟨hrpid, hrem, hrph, hrsec⟩ := buildResponse_facts hhead hr
  have hncsec : newc ∈ (RF.map Entry.contact).filterMap entrySecondary? := by
    rw [filterMap_entrySecondary_map]
    refine List.mem_filter.2 ⟨hnc_mem, ?_⟩
    rw [hnewc]
    rfl
  refine ⟨t, r, ?_, ?_, ?_, ?_⟩
  · rw [heq]
    rfl
  · rw [hrem, ha1em]
    have hEmem : E ∈ ((some E :: ((RF.map Entry.contact).filterMap
        entrySecondary?).map (fun c => c.email)).filterMap norm) := by
      simp only [List.filterMap_cons, hnormE]
      exact List.mem_cons_self _ _
    exact List.count_eq_one_of_mem nodup_uniqFirst (mem_uniqFirst.2 hEmem)
  · rw [hrph]
    apply mem_uniqFirst.2
    refine List.mem_filterMap.2 ⟨some P, ?_, hnormP⟩
    apply List.mem_cons_of_mem
    refine List.mem_map.2 ⟨newc, hncsec, ?_⟩
    rw [hnewc]
  · rw [hrsec]
    refine List.mem_map.2 ⟨newc, hncsec, ?_⟩
    rw [hnewc]

theorem same_email_new_phone_creates_secondary_witness :
    clusterA_DB.failAt = [] ∧ WF clusterA_DB.store ∧
    ∃ t r,
      identify clusterA_DB (some "a@x") (some "999") =
        ({clusterA_DB with tick := t, store := {clusterA_DB.store with
          rows := clusterA_DB.store.rows ++ [⟨clusterA_DB.store.nextId,
            some "999", some "a@x", some cA1.id, .secondary,
            clusterA_DB.store.now, clusterA_DB.store.now, none⟩]
          nextId := clusterA_DB.store.nextId + 1}}, .ok r) ∧
      r.contact.emails.count "a@x" = 1 ∧
      "999" ∈ r.contact.phoneNumbers ∧
      clusterA_DB.store.nextId ∈ r.contact.secondaryContactIds := by
  refine ⟨rfl, WF_clusterA, ?_⟩
  exact same_email_new_phone_creates_secondary clusterA_DB "a@x" "999" cA1 rfl
    WF_clusterA (by decide) (by decide) (by decide) rfl rfl rfl
    (by decide) (by decide)

/-- C7: a request carrying neither identifier (both absent or falsy) is
rejected with the validation error before any store statement runs — the
database, its rows and its statement counter, is returned unchanged. -/
theorem identify_no_identifier_rejected (db : DB) (email phoneNumber : Option String)
    (he : truthy email = false) (hp : truthy phoneNumber = false) :
    identify db email phoneNumber = (db, .error .validation) := by
  rw [identify, if_pos (by simp [he, hp])]

/-- Witness for C7 at a concrete store and request. -/
theorem identify_no_identifier_rejected_witness :
    truthy none = false ∧ truthy (some "") = false ∧
    identify clusterA_DB none (some "") = (clusterA_DB, .error .validation) :=
  ⟨by decide, by decide,
    identify_no_identifier_rejected clusterA_DB none (some "") (by decide) (by decide)⟩

/-! ### C10 -/

/-- C10: the empty string is treated as an absent identifier throughout:
a request with both fields empty is rejected by validation even though both
are supplied; an empty-string field is excluded from the Finder's predicate
exactly as if omitted; and contact creation stores an empty-string field as
null, exactly as if omitted. -/
theorem empty_string_treated_as_absent :
    (∀ db : DB, identify db (some "") (some "") = (db, .error .validation)) ∧
    (∀ (db : DB) (p : Option String),
      findExistingContacts db (some "") p = findExistingContacts db none p) ∧
    (∀ (db : DB) (e : Option String),
      findExistingContacts db e (some "") = findExistingContacts db e none) ∧
    (∀ (db : DB) (p : Option String),
      createPrimaryContact db (some "") p = createPrimaryContact db none p) ∧
    (∀ (db : DB) (e : Option String),
      createPrimaryContact db e (some "") = createPrimaryContact db e none) ∧
    (∀ (db : DB) (p : Option String) (lid : Nat),
      createSecondaryContact db (some "") p lid = createSecondaryContact db none p lid) ∧
    (∀ (db : DB) (e : Option String) (lid : Nat),
      createSecondaryContact db e (some "") lid = createSecondaryContact db e none lid) := by
  refine ⟨?_, ?_, ?_, ?_, ?_, ?_, ?_⟩
  · intro db
    rw [identify, if_pos (by decide)]
  · intro db p
    have hm : matchPred (some "") p = matchPred none p := by
      funext c
      simp [matchPred, norm]
    simp [findExistingContacts, finderQuery, hm]
  · intro db e
    have hm : matchPred e (some "") = matchPred e none := by
      funext c
      simp [matchPred, norm]
    simp [findExistingContacts, finderQuery, hm]
  · intro db p
    simp [createPrimaryContact, norm]
  · intro db e
    simp [createPrimaryContact, norm]
  · intro db p lid
    simp [createSecondaryContact, norm]
  · intro db e lid
    simp [createSecondaryContact, norm]

/-! ### C5 -/

/-- C5 counterexample: with two clusters and a fault injected at the fourth
statement (the dependent re-pointing UPDATE of the demotion transaction),
`identify` propagates the store error but leaves the store changed — the
secondary INSERT committed before the demotion transaction — so the
request's mutations are not one atomic transaction. -/
theorem identify_fault_leaves_partial_state :
    (identify faultyTwoClusterDB (some "a@x") (some "222")).2 = .error .sqlError ∧
    (identify faultyTwoClusterDB (some "a@x") (some "222")).1.store.rows ≠
      faultyTwoClusterDB.store.rows := by
  decide

/-- C5 amended: atomicity holds per demotion transaction, not per request:
whenever `convertPrimaryToSecondary` fails, its two UPDATEs are rolled back
and the rows are exactly as at its BEGIN, and the error propagates; the
secondary INSERT and the demotions of distinct primaries commit
separately. -/
theorem convertPrimaryToSecondary_rolls_back (db : DB) (k : Option (Option Nat))
    (newPrimaryId : Nat) (db' : DB) (err : JsError)
    (h : convertPrimaryToSecondary db k newPrimaryId = (db', some err)) :
    db'.store.rows = db.store.rows := by
  simp only [convertPrimaryToSecondary, runStmt] at h
  split at h
  · rw [Prod.mk.injEq] at h
    rw [← h.1]
  · split at h
    · rw [Prod.mk.injEq] at h
      rw [← h.1]
    · rw [Prod.mk.injEq] at h
      exact absurd h.2 (by simp)

/-- Witness for the amended C5 at a concrete store and fault schedule. -/
theorem convertPrimaryToSecondary_rolls_back_witness :
    convertPrimaryToSecondary rollbackDB (some (some 2)) 1 =
      ((⟨⟨[cA1, cB1], 5, 100⟩, 2, [1]⟩ : DB), some JsError.sqlError) ∧
    (convertPrimaryToSecondary rollbackDB (some (some 2)) 1).1.store.rows =
      rollbackDB.store.rows := by
  have h : convertPrimaryToSecondary rollbackDB (some (some 2)) 1 =
      ((⟨⟨[cA1, cB1], 5, 100⟩, 2, [1]⟩ : DB), some JsError.sqlError) := by decide
  refine ⟨h, ?_⟩
  rw [h]
  exact convertPrimaryToSecondary_rolls_back rollbackDB (some (some 2)) 1 _ _ h

/-! ### C8 -/

/-- C8 counterexample: on a membership list whose secondary carries the
empty-string email — non-null — the code's `filter(Boolean)` drops it, so
the response's emails are not the unique non-null emails the claim
specifies. -/
theorem buildResponse_drops_empty_string :
    buildResponse [Entry.contact cA1, Entry.contact emptyEmailSec] =
      .ok ⟨⟨1, ["a@x"], [], [2]⟩⟩ ∧
    specEmailsNonNull cA1 [emptyEmailSec] = ["a@x", ""] := by
  decide

/-- C8 amended: for a membership list with a unique primary, the emails are
the unique non-null *and non-empty* emails with the primary's first and the
secondaries' in cluster order, phone numbers likewise, and the secondary
ids are the non-primary members' ids in cluster order. -/
theorem buildResponse_shape (pre post : List Contact) (prim : Contact)
    (hpre : ∀ c ∈ pre, c.linkPrecedence = .secondary)
    (hprim : prim.linkPrecedence = .primary) :
    buildResponse ((pre ++ prim :: post).map Entry.contact) =
      .ok ⟨⟨prim.id,
        uniqFirst ((prim.email :: ((pre ++ prim :: post).filter
          (fun c => decide (c.linkPrecedence = .secondary))).map
            (fun c => c.email)).filterMap norm),
        uniqFirst ((prim.phoneNumber :: ((pre ++ prim :: post).filter
          (fun c => decide (c.linkPrecedence = .secondary))).map
            (fun c => c.phoneNumber)).filterMap norm),
        ((pre ++ prim :: post).filter
          (fun c => decide (c.linkPrecedence = .secondary))).map (fun c => c.id)⟩⟩ := by
  unfold buildResponse
  rw [filterMap_entryPrimary_map, filterMap_entrySecondary_map]
  have hfpre : pre.filter (fun c => decide (c.linkPrecedence = .primary)) = [] := by
    rw [List.filter_eq_nil_iff]
    intro c hc
    simp [hpre c hc]
  rw [List.filter_append, hfpre, List.filter_cons, if_pos (by simp [hprim])]
  simp only [List.nil_append, List.head?_cons]

/-- Witness for the amended C8 at a concrete membership list. -/
theorem buildResponse_shape_witness :
    (∀ c ∈ ([] : List Contact), c.linkPrecedence = .secondary) ∧
    cA1.linkPrecedence = .primary ∧
    buildResponse (([] ++ cA1 :: [emptyEmailSec]).map Entry.contact) =
      .ok ⟨⟨1, ["a@x"], [], [2]⟩⟩ := by
  refine ⟨by simp, by decide, ?_⟩
  rw [buildResponse_shape [] [emptyEmailSec] cA1 (by simp) (by decide)]
  decide

/-! ### C6 -/

/-- C6 counterexample: neither selection rule compares ids.  Two primaries
with identical `createdAt`, presented with the larger id first — a
legitimate presentation, since `ORDER BY createdAt` specifies nothing about
the relative order of tied rows — make both `findOldestPrimary` and the
merge's survivor selection return the contact with the LARGER id,
contradicting the claimed smaller-id tie-break. -/
theorem oldest_selection_no_id_tiebreak :
    tiePrimary1.createdAt = tiePrimary2.createdAt ∧
    tiePrimary1.id < tiePrimary2.id ∧
    findOldestPrimary [tiePrimary2, tiePrimary1] = some tiePrimary2 ∧
    survivingPrimary [(some (some 2), [Entry.contact tiePrimary2]),
      (some (some 1), [Entry.contact tiePrimary1])] = some tiePrimary2 := by
  exact ⟨rfl, by decide, by decide, by decide⟩

/-- C6 amended: both selection rules — `findOldestPrimary` (used to link a
new secondary) and the merge's survivor selection — compare `createdAt`
only: any selected contact is a primary candidate of minimal `createdAt`.
No id comparison occurs anywhere, so ties in `createdAt` are resolved
solely by the order in which the store happens to present the rows. -/
theorem oldest_selection_createdAt_only :
    (∀ (l : List Contact) (c : Contact), findOldestPrimary l = some c →
      c ∈ l ∧ c.linkPrecedence = .primary ∧
      ∀ d ∈ l, d.linkPrecedence = .primary → c.createdAt ≤ d.createdAt) ∧
    (∀ (groups : List (Option (Option Nat) × List Entry)) (c : Contact),
      survivingPrimary groups = some c →
      ∀ d ∈ groups.filterMap (fun g => findPrimaryInGroup g.2),
        c.createdAt ≤ d.createdAt) := by
  constructor
  · intro l c hc
    rw [findOldestPrimary] at hc
    have hcmem := head?_mem hc
    rw [mem_sortByKey, List.mem_filter] at hcmem
    obtain ⟨hcl, hcp⟩ := hcmem
    refine ⟨hcl, by simpa using hcp, ?_⟩
    intro d hd hdp
    exact head_sortByKey_min hc (List.mem_filter.2 ⟨hd, by simp [hdp]⟩)
  · intro groups c hc d hd
    rw [survivingPrimary] at hc
    exact head_sortByKey_min hc hd

/-- Witness for the amended C6 property at a concrete tied candidate list. -/
theorem oldest_selection_createdAt_only_witness :
    findOldestPrimary [tiePrimary2, tiePrimary1] = some tiePrimary2 ∧
    tiePrimary2 ∈ [tiePrimary2, tiePrimary1] ∧
    tiePrimary2.linkPrecedence = .primary ∧
    (∀ d ∈ [tiePrimary2, tiePrimary1], d.linkPrecedence = .primary →
      tiePrimary2.createdAt ≤ d.createdAt) := by
  obtain ⟨h1, h2, h3⟩ := oldest_selection_createdAt_only.1
    [tiePrimary2, tiePrimary1] tiePrimary2 (by decide)
  exact ⟨by decide, h1, h2, h3⟩

/-! ### C4 -/

/-- C4: when the request carries at least one identifier and no non-deleted
row matches the finder's predicate, `identify` inserts exactly one new
contact — a primary with null `linkedId` — and answers with that contact as
`primaryContatctId` and no secondaries. -/
theorem identify_no_match_creates_primary (db : DB) (email phoneNumber : Option String)
    (hf : db.failAt = [])
    (hv : truthy email = true ∨ truthy phoneNumber = true)
    (hm : ∀ c ∈ db.store.rows, matchPred email phoneNumber c = false) :
    identify db email phoneNumber =
      ({db with tick := db.tick + 2, store := {db.store with
        rows := db.store.rows ++ [⟨db.store.nextId, norm phoneNumber, norm email, none,
          .primary, db.store.now, db.store.now, none⟩]
        nextId := db.store.nextId + 1}},
       .ok ⟨⟨db.store.nextId, (norm email).toList, (norm phoneNumber).toList, []⟩⟩) := by
  have hcond : (!truthy email && !truthy phoneNumber) = false := by
    rcases hv with h | h <;> simp [h]
  rw [identify, if_neg (by simp [hcond])]
  rw [findExistingContacts_noFail db email phoneNumber hf]
  have hempty : finderQuery db.store.rows email phoneNumber = [] := by
    unfold finderQuery
    have : db.store.rows.filter (matchPred email phoneNumber) = [] := by
      rw [List.filter_eq_nil_iff]
      intro c hc
      simp [hm c hc]
    rw [this, sortByKey]
  rw [hempty]
  dsimp only
  rw [createPrimaryContact_noFail ({db with tick := db.tick + 1}) email phoneNumber hf]
  dsimp only
  rw [buildResponse_single_primary _ rfl]
  rw [norm_norm, norm_norm]
  rw [if_pos rfl]

/-- Witness for C4 at a concrete store and request. -/
theorem identify_no_match_creates_primary_witness :
    (clusterA_DB.failAt = []) ∧
    (truthy (some "z@z") = true ∨ truthy (none : Option String) = true) ∧
    (∀ c ∈ clusterA_DB.store.rows, matchPred (some "z@z") none c = false) ∧
    identify clusterA_DB (some "z@z") none =
      ({clusterA_DB with tick := 2, store := {clusterA_DB.store with
        rows := clusterA_DB.store.rows ++ [⟨5, none, some "z@z", none,
          .primary, 100, 100, none⟩]
        nextId := 6}},
       .ok ⟨⟨5, ["z@z"], [], []⟩⟩) := by
  refine ⟨rfl, Or.inl (by decide), by decide, ?_⟩
  have := identify_no_match_creates_primary clusterA_DB (some "z@z") none rfl
    (Or.inl (by decide)) (by decide)
  rw [this]
  decide

/-! ### C9 -/

theorem matchPred_congr {e p : Option String} {c d : Contact}
    (h1 : c.email = d.email) (h2 : c.phoneNumber = d.phoneNumber)
    (h3 : c.deletedAt = d.deletedAt) : matchPred e p c = matchPred e p d := by
  unfold matchPred
  rw [h1, h2, h3]

/-- On a steady state, `identify` only burns statement ticks: the store is
returned unchanged and the response is built from the re-read cluster of
the covering primary. -/
theorem identify_steady (db : DB) (e p : Option String) (X : Contact)
    (hf : db.failAt = []) (hwf : WF db.store)
    (hv : (!truthy e && !truthy p) = false)
    (hss : SteadyState db.store e p X) :
    ∃ t₂ r₂, identify db e p = ({db with tick := t₂}, Except.ok r₂) ∧
      Except.ok r₂ = buildResponse ((sortByKey (fun c => c.createdAt)
        (db.store.rows.filter (byIdPred X.id))).map Entry.contact) := by
  obtain ⟨hXrow, hXp, hXdel, hcover, hsome, hpair⟩ := hss
  obtain ⟨c₀, hc₀row, hc₀m⟩ := hsome
  have hM : finderQuery db.store.rows e p ≠ [] :=
    List.ne_nil_of_mem (mem_finderQuery.2 ⟨hc₀row, hc₀m⟩)
  have hkeys' : ∀ n ∈ (finderQuery db.store.rows e p).filterMap primaryKeyOf,
      n = X.id := by
    intro n hn
    obtain ⟨c, hcM, hck⟩ := List.mem_filterMap.1 hn
    obtain ⟨hcrow, hcm⟩ := mem_finderQuery.1 hcM
    have hcdel : c.deletedAt = none := (matchPred_iff.1 hcm).2
    obtain ⟨n', pr, hk, hpr, hprid, hprp, hprd, hdisj⟩ :=
      primaryKeyOf_of_WF hwf hcrow hcdel
    rw [hck] at hk
    have hnn' : n = n' := by simpa using hk
    subst hnn'
    rcases hcover c hcrow hcm with hca | hcl
    · have hc1 : c = X := row_id_unique hwf hcrow hXrow hca
      rcases hdisj with h | h
      · rw [← h]
        exact hca
      · exfalso
        have hl0 : c.linkedId = none := hwf.2.2.1 c hcrow (by rw [hc1]; exact hXp)
        rw [hl0] at h
        cases h
    · rcases hdisj with h | h
      · exfalso
        have hcpr : c = pr := row_id_unique hwf hcrow hpr (by rw [h, hprid])
        have hl0 : c.linkedId = none :=
          hwf.2.2.1 c hcrow (by rw [hcpr]; exact hprp)
        rw [hl0] at hcl
        cases hcl
      · rw [h] at hcl
        simpa using hcl
  have hpids : primaryIdsOf (finderQuery db.store.rows e p) = [X.id] := by
    rw [primaryIdsOf]
    apply uniqFirst_const
    · have hc₀del : c₀.deletedAt = none := (matchPred_iff.1 hc₀m).2
      obtain ⟨n, pr, hk, -⟩ := primaryKeyOf_of_WF hwf hc₀row hc₀del
      exact List.ne_nil_of_mem (List.mem_filterMap.2
        ⟨c₀, mem_finderQuery.2 ⟨hc₀row, hc₀m⟩, hk⟩)
    · exact hkeys'
  have hNN : needsNewSecondaryContact (expandQuery db.store.rows
      (primaryIdsOf (finderQuery db.store.rows e p))) e p = false := by
    obtain ⟨m, hmrow, hmdel, hmcl, hmem, hmph⟩ := hpair
    rw [needsNewSecondaryContact, Bool.not_eq_false']
    apply List.any_eq_true.2
    refine ⟨m, ?_, by simp [hmem, hmph]⟩
    rw [hpids]
    refine mem_expandQuery.2 ⟨hmrow, expandPred_iff.2 ⟨?_, hmdel⟩⟩
    rcases hmcl with hid | hlid
    · exact Or.inl (by rw [hid]; exact List.mem_singleton.2 rfl)
    · exact Or.inr ⟨X.id, hlid, List.mem_singleton.2 rfl⟩
  obtain ⟨A, demoted, ins, t, r, heq, hArow, hAp, hAdel, hApid, hdem, hmin,
    hlive, hins, hr⟩ := identify_matched_noFail db e p hf hwf hv hM
  have hA2 : A.id = X.id := by
    rw [hpids] at hApid
    simpa using hApid
  have hAX : A = X := row_id_unique hwf hArow hXrow hA2
  have hdem0 : demoted = [] := by
    rw [List.eq_nil_iff_forall_not_mem]
    intro n hn
    obtain ⟨hnp, hna⟩ := (hdem n).1 hn
    rw [hpids] at hnp
    refine hna ?_
    rw [hA2]
    simpa using hnp
  subst hdem0
  rw [if_neg (by simp [hNN])] at hins
  subst hins
  rw [hAX] at heq hr
  have hrows : (db.store.rows ++ []).map (mergedRow [] X.id db.store.now) =
      db.store.rows := by
    rw [List.append_nil]
    exact (List.map_congr_left (fun c _ => mergedRow_nil X.id db.store.now c)).trans
      (List.map_id _)
  rw [hrows] at heq hr
  refine ⟨t, r, ?_, hr⟩
  rw [heq]
  rfl

/-- A successful matched run leaves the store in a steady state for the
same request, with the response determined by the surviving primary's
cluster. -/
theorem identify_matched_post (db : DB) (e p : Option String)
    (hf : db.failAt = []) (hwf : WF db.store)
    (hv : (!truthy e && !truthy p) = false)
    (hM : finderQuery db.store.rows e p ≠ []) :
    ∃ db₁ r, identify db e p = (db₁, Except.ok r) ∧
      db₁.failAt = db.failAt ∧ WF db₁.store ∧
      ∃ X, SteadyState db₁.store e p X ∧
        Except.ok r = buildResponse ((sortByKey (fun c => c.createdAt)
          (db₁.store.rows.filter (byIdPred X.id))).map Entry.contact) := by
  obtain ⟨A, demoted, ins, t, r, heq, hArow, hAp, hAdel, hApid, hdem, hmin,
    hlive, hins, hr⟩ := identify_matched_noFail db e p hf hwf hv hM
  have hAnd : A.id ∉ demoted := fun h => ((hdem A.id).1 h).2 rfl
  have hAlid : A.linkedId = none := hwf.2.2.1 A hArow hAp
  have hAmerge : mergedRow demoted A.id db.store.now A = A := by
    apply mergedRow_untouched hAnd
    intro m hm
    rw [hAlid] at hm
    cases hm
  have hdem_pids : ∀ n ∈ demoted,
      n ∈ primaryIdsOf (finderQuery db.store.rows e p) :=
    fun n hn => ((hdem n).1 hn).1
  have hdem_lt : ∀ n ∈ demoted, n < db.store.nextId := by
    intro n hn
    obtain ⟨pr, hprrow, hprid, -, -⟩ := hlive n (hdem_pids n hn)
    have h2 := (hwf.1 pr hprrow).2
    omega
  have hins2 : (ins = [] ∧ ∃ m ∈ expandQuery db.store.rows
      (primaryIdsOf (finderQuery db.store.rows e p)),
      m.email = norm e ∧ m.phoneNumber = norm p) ∨
    ∃ L ∈ db.store.rows, L.linkPrecedence = .primary ∧
      L.deletedAt = none ∧ L.id ∈ primaryIdsOf (finderQuery db.store.rows e p) ∧
      ins = [⟨db.store.nextId, norm p, norm e, some L.id, .secondary,
        db.store.now, db.store.now, none⟩] := by
    by_cases hNN : needsNewSecondaryContact (expandQuery db.store.rows
        (primaryIdsOf (finderQuery db.store.rows e p))) e p = true
    · rw [if_pos hNN] at hins
      obtain ⟨L, hL1, hL2, hL3, hL4, hL5⟩ := hins
      exact Or.inr ⟨L, hL1, hL2, hL3, hL4, hL5⟩
    · rw [if_neg hNN] at hins
      left
      refine ⟨hins, ?_⟩
      have hNNf : needsNewSecondaryContact (expandQuery db.store.rows
          (primaryIdsOf (finderQuery db.store.rows e p))) e p = false :=
        Bool.eq_false_iff.2 hNN
      rw [needsNewSecondaryContact, Bool.not_eq_false'] at hNNf
      obtain ⟨m, hmX, hmp⟩ := List.any_eq_true.1 hNNf
      simp only [Bool.and_eq_true, decide_eq_true_eq] at hmp
      exact ⟨m, hmX, hmp.1, hmp.2⟩
  have himage_cluster : ∀ c ∈ db.store.rows, c.deletedAt = none →
      (c.id ∈ primaryIdsOf (finderQuery db.store.rows e p) ∨
        ∃ k, c.linkedId = some k ∧
          k ∈ primaryIdsOf (finderQuery db.store.rows e p)) →
      (mergedRow demoted A.id db.store.now c).id = A.id ∨
        (mergedRow demoted A.id db.store.now c).linkedId = some A.id := by
    intro c hcrow hcdel hcase
    rcases hcase with hid | ⟨k, hlid, hk⟩
    · by_cases hCA : c.id = A.id
      · left
        rw [mergedRow_id]
        exact hCA
      · have hcd : c.id ∈ demoted := (hdem c.id).2 ⟨hid, hCA⟩
        right
        rw [mergedRow_demote hcd]
    · have hcd : c.id ∉ demoted := by
        intro h
        obtain ⟨pr, hprrow, hprid, hprp, -⟩ := hlive c.id (hdem_pids c.id h)
        have hcpr : c = pr := row_id_unique hwf hcrow hprrow hprid.symm
        have h0 : c.linkedId = none := hwf.2.2.1 c hcrow (by rw [hcpr]; exact hprp)
        rw [h0] at hlid
        cases hlid
      by_cases hkA : k = A.id
      · right
        have hunt : mergedRow demoted A.id db.store.now c = c := by
          apply mergedRow_untouched hcd
          intro m hm
          rw [hlid] at hm
          cases hm
          rw [hkA]
          exact hAnd
        rw [hunt, hlid, hkA]
      · have hkd : k ∈ demoted := (hdem k).2 ⟨hk, hkA⟩
        right
        rw [mergedRow_repoint hcd hlid hkd]
  have hins_cluster : ∀ c ∈ ins,
      (mergedRow demoted A.id db.store.now c).linkedId = some A.id := by
    intro c hc
    rcases hins2 with ⟨hnil, -⟩ | ⟨L, hLrow, hLp, hLdel, hLpid, hinseq⟩
    · rw [hnil] at hc
      cases hc
    · rw [hinseq] at hc
      have hceq : c = ⟨db.store.nextId, norm p, norm e, some L.id, .secondary,
          db.store.now, db.store.now, none⟩ := List.mem_singleton.1 hc
      subst hceq
      have hcid : (⟨db.store.nextId, norm p, norm e, some L.id, .secondary,
          db.store.now, db.store.now, none⟩ : Contact).id ∉ demoted := by
        intro h
        have h2 := hdem_lt _ h
        simp at h2
      by_cases hLA : L.id = A.id
      · have hunt : mergedRow demoted A.id db.store.now
            ⟨db.store.nextId, norm p, norm e, some L.id, .secondary,
              db.store.now, db.store.now, none⟩ =
            ⟨db.store.nextId, norm p, norm e, some L.id, .secondary,
              db.store.now, db.store.now, none⟩ := by
          apply mergedRow_untouched hcid
          intro m hm
          simp only at hm
          cases hm
          rw [hLA]
          exact hAnd
        rw [hunt]
        simp [hLA]
      · have hkd : L.id ∈ demoted := (hdem L.id).2 ⟨hLpid, hLA⟩
        rw [mergedRow_repoint hcid rfl hkd]
  have hmp : ∀ c, matchPred e p (mergedRow demoted A.id db.store.now c) =
      matchPred e p c := fun c =>
    matchPred_congr (mergedRow_email demoted A.id db.store.now c)
      (mergedRow_phoneNumber demoted A.id db.store.now c)
      (mergedRow_deletedAt demoted A.id db.store.now c)
  have hwf1 : WF ⟨(db.store.rows ++ ins).map (mergedRow demoted A.id db.store.now),
      db.store.nextId + ins.length, db.store.now⟩ := by
    refine ⟨?_, ?_, ?_, ?_, ?_⟩
    · show ∀ c ∈ (db.store.rows ++ ins).map (mergedRow demoted A.id db.store.now),
        1 ≤ c.id ∧ c.id < db.store.nextId + ins.length
      intro c hc
      obtain ⟨c₀, hc₀, hceq⟩ := List.mem_map.1 hc
      rw [← hceq, mergedRow_id]
      rcases List.mem_append.1 hc₀ with h | h
      · have h2 := hwf.1 c₀ h
        omega
      · rcases hins2 with ⟨hnil, -⟩ | ⟨L, -, -, -, -, hinseq⟩
        · rw [hnil] at h
          cases h
        · rw [hinseq] at h
          rw [List.mem_singleton.1 h, hinseq]
          exact ⟨hwf.2.2.2.2, Nat.lt_succ_self _⟩
    · show (((db.store.rows ++ ins).map
        (mergedRow demoted A.id db.store.now)).map (fun c => c.id)).Nodup
      have h1 : ((db.store.rows ++ ins).map
          (mergedRow demoted A.id db.store.now)).map (fun c => c.id) =
          db.store.rows.map (fun c => c.id) ++ ins.map (fun c => c.id) := by
        rw [List.map_map]
        exact (List.map_congr_left
          (fun c _ => mergedRow_id demoted A.id db.store.now c)).trans
          (List.map_append _ _ _)
      rw [h1]
      rcases hins2 with ⟨hnil, -⟩ | ⟨L, -, -, -, -, hinseq⟩
      · rw [hnil]
        simpa using hwf.2.1
      · rw [hinseq]
        rw [List.nodup_append]
        refine ⟨hwf.2.1, by simp, ?_⟩
        intro x hx hx2
        simp at hx2
        obtain ⟨c₀, hc₀, hcid⟩ := List.mem_map.1 hx
        have h2 := (hwf.1 c₀ hc₀).2
        omega
    · intro c hc hcp
      obtain ⟨c₀, hc₀, hceq⟩ := List.mem_map.1 hc
      by_cases hcd : c₀.id ∈ demoted
      · exfalso
        have hs : c.linkPrecedence = .secondary := by
          rw [← hceq]
          exact mergedRow_linkPrecedence_demote hcd
        rw [hcp] at hs
        cases hs
      · have hcp0 : c₀.linkPrecedence = .primary := by
          rw [← hceq, mergedRow_linkPrecedence_stable hcd] at hcp
          exact hcp
        rcases List.mem_append.1 hc₀ with h | h
        · have h0 : c₀.linkedId = none := hwf.2.2.1 c₀ h hcp0
          have hunt : mergedRow demoted A.id db.store.now c₀ = c₀ := by
            apply mergedRow_untouched hcd
            intro m hm
            rw [h0] at hm
            cases hm
          rw [← hceq, hunt]
          exact h0
        · exfalso
          rcases hins2 with ⟨hnil, -⟩ | ⟨L, -, -, -, -, hinseq⟩
          · rw [hnil] at h
            cases h
          · rw [hinseq] at h
            rw [List.mem_singleton.1 h] at hcp0
            simp at hcp0
    · intro c hc hcs
      obtain ⟨c₀, hc₀, hceq⟩ := List.mem_map.1 hc
      rcases mergedRow_linkedId_cases demoted A.id db.store.now c₀ with hl |
          ⟨hunt, hnol⟩
      · refine ⟨A.id, by rw [← hceq]; exact hl, A, ?_, rfl, hAp, hAdel⟩
        exact List.mem_map.2 ⟨A, List.mem_append.2 (Or.inl hArow), hAmerge⟩
      · rcases List.mem_append.1 hc₀ with h | h
        · have hcs0 : c₀.linkPrecedence = .secondary := by
            rw [← hceq, hunt] at hcs
            exact hcs
          obtain ⟨pid, hpid, pr, hprrow, hprid, hprp, hprd⟩ :=
            hwf.2.2.2.1 c₀ h hcs0
          have hprunt : mergedRow demoted A.id db.store.now pr = pr := by
            apply mergedRow_untouched (by rw [hprid]; exact hnol pid hpid)
            intro m hm
            rw [hwf.2.2.1 pr hprrow hprp] at hm
            cases hm
          refine ⟨pid, ?_, pr, ?_, hprid, hprp, hprd⟩
          · rw [← hceq, hunt]
            exact hpid
          · exact List.mem_map.2 ⟨pr, List.mem_append.2 (Or.inl hprrow), hprunt⟩
        · rcases hins2 with ⟨hnil, -⟩ | ⟨L, hLrow, hLp, hLdel, hLpid, hinseq⟩
          · rw [hnil] at h
            cases h
          · rw [hinseq] at h
            have hc5 := List.mem_singleton.1 h
            have hLnd : L.id ∉ demoted := by
              apply hnol
              rw [hc5]
            have hLunt : mergedRow demoted A.id db.store.now L = L := by
              apply mergedRow_untouched hLnd
              intro m hm
              rw [hwf.2.2.1 L hLrow hLp] at hm
              cases hm
            refine ⟨L.id, ?_, L, ?_, rfl, hLp, hLdel⟩
            · rw [← hceq, hunt, hc5]
            · exact List.mem_map.2 ⟨L, List.mem_append.2 (Or.inl hLrow), hLunt⟩
    · show 1 ≤ db.store.nextId + ins.length
      have h2 := hwf.2.2.2.2
      omega
  refine ⟨_, r, heq, rfl, hwf1, A, ⟨?_, hAp, hAdel, ?_, ?_, ?_⟩, hr⟩
  · exact List.mem_map.2 ⟨A, List.mem_append.2 (Or.inl hArow), hAmerge⟩
  · intro c hc hcm
    obtain ⟨c₀, hc₀, hceq⟩ := List.mem_map.1 hc
    rcases List.mem_append.1 hc₀ with h | h
    · have hcm0 : matchPred e p c₀ = true := by
        rw [← hceq, hmp c₀] at hcm
        exact hcm
      have hcdel : c₀.deletedAt = none := (matchPred_iff.1 hcm0).2
      have hcM : c₀ ∈ finderQuery db.store.rows e p :=
        mem_finderQuery.2 ⟨h, hcm0⟩
      obtain ⟨n, pr, hk, hprrow, hprid, hprp, hprd, hdisj⟩ :=
        primaryKeyOf_of_WF hwf h hcdel
      have hnp : n ∈ primaryIdsOf (finderQuery db.store.rows e p) :=
        mem_primaryIdsOf.2 ⟨c₀, hcM, hk⟩
      have hside : c₀.id ∈ primaryIdsOf (finderQuery db.store.rows e p) ∨
          ∃ k, c₀.linkedId = some k ∧
            k ∈ primaryIdsOf (finderQuery db.store.rows e p) := by
        rcases hdisj with hh | hh
        · exact Or.inl (by rw [hh]; exact hnp)
        · exact Or.inr ⟨n, hh, hnp⟩
      rw [← hceq]
      exact himage_cluster c₀ h hcdel hside
    · right
      rw [← hceq]
      exact hins_cluster c₀ h
  · obtain ⟨c₀, hc₀⟩ := List.exists_mem_of_ne_nil _ hM
    obtain ⟨hc₀row, hc₀m⟩ := mem_finderQuery.1 hc₀
    refine ⟨mergedRow demoted A.id db.store.now c₀,
      List.mem_map.2 ⟨c₀, List.mem_append.2 (Or.inl hc₀row), rfl⟩, ?_⟩
    rw [hmp c₀]
    exact hc₀m
  · rcases hins2 with ⟨hnil, m, hmX, hmem, hmph⟩ |
        ⟨L, hLrow, hLp, hLdel, hLpid, hinseq⟩
    · obtain ⟨hmrow, hmpred⟩ := mem_expandQuery.1 hmX
      obtain ⟨hmor, hmdel⟩ := expandPred_iff.1 hmpred
      refine ⟨mergedRow demoted A.id db.store.now m,
        List.mem_map.2 ⟨m, List.mem_append.2 (Or.inl hmrow), rfl⟩, ?_, ?_, ?_, ?_⟩
      · rw [mergedRow_deletedAt]
        exact hmdel
      · exact himage_cluster m hmrow hmdel hmor
      · rw [mergedRow_email]
        exact hmem
      · rw [mergedRow_phoneNumber]
        exact hmph
    · have hnc : (⟨db.store.nextId, norm p, norm e, some L.id, .secondary,
          db.store.now, db.store.now, none⟩ : Contact) ∈ ins := by
        rw [hinseq]
        exact List.mem_singleton.2 rfl
      refine ⟨mergedRow demoted A.id db.store.now ⟨db.store.nextId, norm p,
          norm e, some L.id, .secondary, db.store.now, db.store.now, none⟩,
        List.mem_map.2 ⟨_, List.mem_append.2 (Or.inr hnc), rfl⟩, ?_, ?_, ?_, ?_⟩
      · rw [mergedRow_deletedAt]
      · exact Or.inr (hins_cluster _ hnc)
      · rw [mergedRow_email]
      · rw [mergedRow_phoneNumber]

/-- A successful no-match run (which creates a fresh primary) leaves the
store in a steady state for the same request, with the response determined
by the new primary's one-member cluster. -/
theorem identify_nomatch_post (db : DB) (e p : Option String)
    (hf : db.failAt = []) (hwf : WF db.store)
    (hv : (!truthy e && !truthy p) = false)
    (hMe : finderQuery db.store.rows e p = []) :
    ∃ db₁ r, identify db e p = (db₁, Except.ok r) ∧
      db₁.failAt = db.failAt ∧ WF db₁.store ∧
      ∃ X, SteadyState db₁.store e p X ∧
        Except.ok r = buildResponse ((sortByKey (fun c => c.createdAt)
          (db₁.store.rows.filter (byIdPred X.id))).map Entry.contact) := by
  have hvor : truthy e = true ∨ truthy p = true := by
    cases he : truthy e with
    | true => exact Or.inl rfl
    | false =>
      right
      rw [he] at hv
      simpa using hv
  have hmfalse : ∀ c ∈ db.store.rows, matchPred e p c = false := by
    have hfil : db.store.rows.filter (matchPred e p) = [] := by
      by_contra hne
      obtain ⟨c, hc⟩ := List.exists_mem_of_ne_nil _ hne
      have hmem : c ∈ finderQuery db.store.rows e p := by
        rw [finderQuery, mem_sortByKey]
        exact hc
      rw [hMe] at hmem
      cases hmem
    rw [List.filter_eq_nil_iff] at hfil
    intro c hc
    exact Bool.eq_false_iff.2 (hfil c hc)
  have hrun : identify db e p =
      ({db with tick := db.tick + 2, store := {db.store with
        rows := db.store.rows ++ [⟨db.store.nextId, norm p, norm e, none,
          .primary, db.store.now, db.store.now, none⟩]
        nextId := db.store.nextId + 1}},
       .ok ⟨⟨db.store.nextId, (norm e).toList, (norm p).toList, []⟩⟩) := by
    rw [identify, if_neg (by simp [hv])]
    rw [findExistingContacts_noFail db e p hf]
    rw [hMe]
    dsimp only
    rw [createPrimaryContact_noFail ({db with tick := db.tick + 1}) e p hf]
    dsimp only
    rw [buildResponse_single_primary _ rfl]
    rw [norm_norm, norm_norm]
    rw [if_pos rfl]
  have hmatchnew : matchPred e p ⟨db.store.nextId, norm p, norm e, none,
      .primary, db.store.now, db.store.now, none⟩ = true := by
    unfold matchPred
    rcases hvor with he | hp
    · obtain ⟨v, hv'⟩ := truthy_iff.1 he
      rw [hv']
      simp
    · obtain ⟨v, hv'⟩ := truthy_iff.1 hp
      rw [hv']
      simp
  have hwf1 : WF ⟨db.store.rows ++ [⟨db.store.nextId, norm p, norm e, none,
      .primary, db.store.now, db.store.now, none⟩],
      db.store.nextId + 1, db.store.now⟩ := by
    refine ⟨?_, ?_, ?_, ?_, ?_⟩
    · intro c hc
      rcases List.mem_append.1 hc with h | h
      · have h2 := hwf.1 c h
        show 1 ≤ c.id ∧ c.id < db.store.nextId + 1
        omega
      · rw [List.mem_singleton.1 h]
        exact ⟨hwf.2.2.2.2, Nat.lt_succ_self _⟩
    · show ((db.store.rows ++ [(⟨db.store.nextId, norm p, norm e, none,
        .primary, db.store.now, db.store.now, none⟩ : Contact)]).map
          (fun c => c.id)).Nodup
      rw [List.map_append, List.nodup_append]
      refine ⟨hwf.2.1, by simp, ?_⟩
      intro x hx hx2
      simp at hx2
      obtain ⟨c₀, hc₀, hcid⟩ := List.mem_map.1 hx
      have h2 := (hwf.1 c₀ hc₀).2
      omega
    · intro c hc hcp
      rcases List.mem_append.1 hc with h | h
      · exact hwf.2.2.1 c h hcp
      · rw [List.mem_singleton.1 h]
    · intro c hc hcs
      rcases List.mem_append.1 hc with h | h
      · obtain ⟨pid, hpid, pr, hprrow, hprid, hprp, hprd⟩ :=
          hwf.2.2.2.1 c h hcs
        exact ⟨pid, hpid, pr, List.mem_append.2 (Or.inl hprrow), hprid,
          hprp, hprd⟩
      · exfalso
        rw [List.mem_singleton.1 h] at hcs
        simp at hcs
    · show 1 ≤ db.store.nextId + 1
      omega
  have hlinked_lt : ∀ c ∈ db.store.rows, c.linkedId ≠ some db.store.nextId := by
    intro c hc hlid
    cases hcp : c.linkPrecedence with
    | primary =>
      have h0 := hwf.2.2.1 c hc hcp
      rw [h0] at hlid
      cases hlid
    | secondary =>
      obtain ⟨pid, hpid, pr, hprrow, hprid, -, -⟩ := hwf.2.2.2.1 c hc hcp
      rw [hpid] at hlid
      have hpe : pid = db.store.nextId := by simpa using hlid
      have h2 := (hwf.1 pr hprrow).2
      rw [hprid] at h2
      omega
  refine ⟨_, _, hrun, rfl, hwf1,
    ⟨db.store.nextId, norm p, norm e, none, .primary, db.store.now,
      db.store.now, none⟩,
    ⟨List.mem_append.2 (Or.inr (List.mem_singleton.2 rfl)), rfl, rfl,
      ?_, ?_, ?_⟩, ?_⟩
  · intro c hc hcm
    rcases List.mem_append.1 hc with h | h
    · exfalso
      rw [hmfalse c h] at hcm
      cases hcm
    · left
      rw [List.mem_singleton.1 h]
  · exact ⟨_, List.mem_append.2 (Or.inr (List.mem_singleton.2 rfl)), hmatchnew⟩
  · exact ⟨_, List.mem_append.2 (Or.inr (List.mem_singleton.2 rfl)), rfl,
      Or.inl rfl, rfl, rfl⟩
  · have h2 : byIdPred db.store.nextId ⟨db.store.nextId, norm p, norm e, none,
        .primary, db.store.now, db.store.now, none⟩ = true := by
      simp [byIdPred]
    have hfil : (db.store.rows ++ [(⟨db.store.nextId, norm p, norm e, none,
        .primary, db.store.now, db.store.now, none⟩ : Contact)]).filter
        (byIdPred db.store.nextId) = [⟨db.store.nextId, norm p, norm e, none,
        .primary, db.store.now, db.store.now, none⟩] := by
      rw [List.filter_append]
      have h1 : db.store.rows.filter (byIdPred db.store.nextId) = [] := by
        rw [List.filter_eq_nil_iff]
        intro c hc hct
        obtain ⟨hor, -⟩ := byIdPred_iff.1 hct
        rcases hor with hid | hlid
        · have h3 := (hwf.1 c hc).2
          omega
        · exact hlinked_lt c hc hlid
      rw [h1]
      simp [List.filter_singleton, h2]
    show Except.ok (⟨⟨db.store.nextId, (norm e).toList, (norm p).toList, []⟩⟩ :
        IdentifyResponse) =
      buildResponse ((sortByKey (fun c => c.createdAt)
        ((db.store.rows ++ [(⟨db.store.nextId, norm p, norm e, none,
          .primary, db.store.now, db.store.now, none⟩ : Contact)]).filter
            (byIdPred db.store.nextId))).map Entry.contact)
    rw [hfil]
    rw [show sortByKey (fun c => c.createdAt) [(⟨db.store.nextId, norm p,
        norm e, none, .primary, db.store.now, db.store.now, none⟩ : Contact)] =
      [⟨db.store.nextId, norm p, norm e, none, .primary, db.store.now,
        db.store.now, none⟩] from rfl]
    rw [List.map_singleton]
    rw [buildResponse_single_primary ⟨db.store.nextId, norm p, norm e, none,
      .primary, db.store.now, db.store.now, none⟩ rfl]
    dsimp only
    rw [norm_norm, norm_norm]

/-- C9: idempotence.  After any successfully answered request — in
particular one that performed a merge — re-submitting the identical request
changes nothing in the store (only the statement counter advances) and
returns the very same response. -/
theorem identify_idempotent (db : DB) (e p : Option String) (db₁ : DB)
    (r : IdentifyResponse)
    (hf : db.failAt = []) (hwf : WF db.store)
    (h1 : identify db e p = (db₁, Except.ok r)) :
    ∃ t₂, identify db₁ e p = ({db₁ with tick := t₂}, Except.ok r) := by
  have hv : (!truthy e && !truthy p) = false := by
    cases h : (!truthy e && !truthy p) with
    | false => rfl
    | true =>
      exfalso
      rw [identify, if_pos h] at h1
      have h2 := congrArg Prod.snd h1
      simp at h2
  have hpost : ∃ db₁' r', identify db e p = (db₁', Except.ok r') ∧
      db₁'.failAt = db.failAt ∧ WF db₁'.store ∧
      ∃ X, SteadyState db₁'.store e p X ∧
        Except.ok r' = buildResponse ((sortByKey (fun c => c.createdAt)
          (db₁'.store.rows.filter (byIdPred X.id))).map Entry.contact) := by
    by_cases hMe : finderQuery db.store.rows e p = []
    · exact identify_nomatch_post db e p hf hwf hv hMe
    · exact identify_matched_post db e p hf hwf hv hMe
  obtain ⟨db₁', r', hrun, hfail, hwf1, X, hss, hresp⟩ := hpost
  rw [h1] at hrun
  have hdbeq : db₁ = db₁' := congrArg Prod.fst hrun
  have hreq : r = r' := by
    have h2 := congrArg Prod.snd hrun
    simpa using h2
  subst hdbeq
  subst hreq
  obtain ⟨t₂, r₂, hrun2, hresp2⟩ :=
    identify_steady db₁ e p X (hfail.trans hf) hwf1 hv hss
  have hr2r : r₂ = r := by
    have h3 := hresp2.trans hresp.symm
    simpa using h3
  rw [hr2r] at hrun2
  exact ⟨t₂, hrun2⟩

theorem identify_idempotent_witness :
    twoClusterDB.failAt = [] ∧ WF twoClusterDB.store ∧
    ∃ db₁ r, identify twoClusterDB (some "a@x") (some "222") =
        (db₁, Except.ok r) ∧
      ∃ t₂, identify db₁ (some "a@x") (some "222") =
        ({db₁ with tick := t₂}, Except.ok r) := by
  refine ⟨rfl, WF_twoCluster,
    ⟨⟨[⟨1, none, some "a@x", none, .primary, 10, 10, none⟩,
       ⟨2, some "222", none, some 1, .secondary, 20, 100, none⟩,
       ⟨3, some "111", none, some 1, .secondary, 30, 30, none⟩,
       ⟨4, some "333", none, some 1, .secondary, 40, 100, none⟩,
       ⟨5, some "222", some "a@x", some 1, .secondary, 100, 100, none⟩],
      6, 100⟩, 8, []⟩,
    ⟨⟨1, ["a@x"], ["222", "111", "333"], [2, 3, 4, 5]⟩⟩, ?_, ?_⟩
  · decide
  · exact identify_idempotent twoClusterDB (some "a@x") (some "222") _ _
      rfl WF_twoCluster (by decide)

end IdentitySvc
